import Mathlib

/-! Writer service (`3-writer`): change applier, schema type cache, bootstrap sequence.

A shallow embedding of the Go sources `consumer.go`, `replication.go` and `main.go`.

* Go `interface{}` values produced by `encoding/json` (and the `time.Time` values
  produced by `convertTimestamp`) are the inductive type `Value`.
* Go maps `map[string]interface{}` are association lists with first-match lookup.
* Everything the code obtains from outside (the JSON decoder, the process time zone,
  the outcome of `sql.Open`, `db.Exec`, `db.Query`, the iteration order of `range`
  over a map, the exit status of subprocesses) is an explicit parameter.
* `int64` arithmetic is done on `Int`; truncated division is `Int.tdiv` / `Int.tmod`.
-/

set_option autoImplicit false

namespace Writer

/-! ## Values -/

/-- A `time.Time` as built by `time.Unix`: seconds since the Unix epoch and the
nanoseconds within that second. -/
structure Time where
  sec : Int
  nsec : Int
deriving DecidableEq, Repr

/-- A `float64`: the finite value `m * 2 ^ e`, an infinity, or a NaN. -/
inductive F64 where
  | fin (m : Int) (e : Int)
  | inf (neg : Bool)
  | nan
deriving DecidableEq, Repr

/-- The dynamic values an `interface{}` holds in this program: what `encoding/json`
decodes into (`nil`, `bool`, `float64`, `string`, `[]interface{}`,
`map[string]interface{}`) and `time.Time`. -/
inductive Value where
  | null
  | bool (b : Bool)
  | num (f : F64)
  | str (s : String)
  | time (t : Time)
  | arr (xs : List Value)
  | obj (m : List (String × Value))
deriving Repr

mutual
/-- Decidable equality of values. -/
def Value.decEq : (a b : Value) → Decidable (a = b)
  | .null, .null => isTrue rfl
  | .bool a, .bool b =>
    if h : a = b then isTrue (by rw [h]) else isFalse (by intro e; cases e; exact h rfl)
  | .num a, .num b =>
    if h : a = b then isTrue (by rw [h]) else isFalse (by intro e; cases e; exact h rfl)
  | .str a, .str b =>
    if h : a = b then isTrue (by rw [h]) else isFalse (by intro e; cases e; exact h rfl)
  | .time a, .time b =>
    if h : a = b then isTrue (by rw [h]) else isFalse (by intro e; cases e; exact h rfl)
  | .arr a, .arr b =>
    match Value.decEqList a b with
    | isTrue h => isTrue (by rw [h])
    | isFalse h => isFalse (by intro e; cases e; exact h rfl)
  | .obj a, .obj b =>
    match Value.decEqFields a b with
    | isTrue h => isTrue (by rw [h])
    | isFalse h => isFalse (by intro e; cases e; exact h rfl)
  | .null, .bool _ | .null, .num _ | .null, .str _ | .null, .time _ | .null, .arr _
  | .null, .obj _
  | .bool _, .null | .bool _, .num _ | .bool _, .str _ | .bool _, .time _ | .bool _, .arr _
  | .bool _, .obj _
  | .num _, .null | .num _, .bool _ | .num _, .str _ | .num _, .time _ | .num _, .arr _
  | .num _, .obj _
  | .str _, .null | .str _, .bool _ | .str _, .num _ | .str _, .time _ | .str _, .arr _
  | .str _, .obj _
  | .time _, .null | .time _, .bool _ | .time _, .num _ | .time _, .str _ | .time _, .arr _
  | .time _, .obj _
  | .arr _, .null | .arr _, .bool _ | .arr _, .num _ | .arr _, .str _ | .arr _, .time _
  | .arr _, .obj _
  | .obj _, .null | .obj _, .bool _ | .obj _, .num _ | .obj _, .str _ | .obj _, .time _
  | .obj _, .arr _ =>
    isFalse (by intro e; cases e)
/-- Decidable equality of lists of values. -/
def Value.decEqList : (a b : List Value) → Decidable (a = b)
  | [], [] => isTrue rfl
  | [], _ :: _ => isFalse (by intro e; cases e)
  | _ :: _, [] => isFalse (by intro e; cases e)
  | x :: xs, y :: ys =>
    match Value.decEq x y, Value.decEqList xs ys with
    | isTrue h, isTrue h2 => isTrue (by rw [h, h2])
    | isFalse h, _ => isFalse (by intro e; cases e; exact h rfl)
    | _, isFalse h => isFalse (by intro e; cases e; exact h rfl)
/-- Decidable equality of maps. -/
def Value.decEqFields : (a b : List (String × Value)) → Decidable (a = b)
  | [], [] => isTrue rfl
  | [], _ :: _ => isFalse (by intro e; cases e)
  | _ :: _, [] => isFalse (by intro e; cases e)
  | (k, x) :: xs, (k2, y) :: ys =>
    if hk : k = k2 then
      match Value.decEq x y, Value.decEqFields xs ys with
      | isTrue h, isTrue h2 => isTrue (by rw [hk, h, h2])
      | isFalse h, _ => isFalse (by intro e; cases e; exact h rfl)
      | _, isFalse h => isFalse (by intro e; cases e; exact h rfl)
    else isFalse (by intro e; cases e; exact hk rfl)
end

instance : DecidableEq Value := Value.decEq

/-- A Go `map[string]interface{}`. -/
abbrev GoMap := List (String × Value)

/-- The map index expression `m[k]`: the value stored under `k`, or `nil`. -/
def GoMap.get (m : GoMap) (k : String) : Value :=
  match m.lookup k with
  | some v => v
  | none => .null

/-- The type assertion `v.(map[string]interface{})`; `none` is `ok == false`
(the asserted variable is then the nil map). -/
def Value.asMap : Value → Option GoMap
  | .obj m => some m
  | _ => none

/-- The type assertion `v.(string)` with the result `ok` discarded: the zero
value `""` when `v` is not a string. -/
def Value.asString : Value → String
  | .str s => s
  | _ => ""

/-! ## The part of the runtime the code depends on -/

/-- What is fixed for the life of the process.

* `localOffset s`: offset east of UTC, in seconds, that the process time zone
  `time.Local` has at Unix second `s` (`time.Unix` returns a `Time` in `Local`,
  and `Time.Year` reads the calendar in the location of the `Time`).
* `outOfRange f`: what the conversion `int64(f)` yields when `f` is a NaN, an
  infinity or has a truncation outside the `int64` range (the Go specification
  leaves it to the implementation).
* `jsonDecode b`: the value `encoding/json` decodes the bytes `b` into, `none`
  when `b` is not valid JSON. -/
structure Runtime where
  localOffset : Int → Int
  outOfRange : F64 → Int
  jsonDecode : List UInt8 → Option Value

/-! ## `time.Unix` and `Time.Year` -/

/-- Go `time.Unix(sec, nsec)`: `nsec` outside `[0, 999999999]` is carried into
the seconds. -/
def unix (sec nsec : Int) : Time :=
  if nsec < 0 ∨ nsec ≥ 1000000000 then
    let n := Int.tdiv nsec 1000000000
    let sec := sec + n
    let nsec := nsec - n * 1000000000
    if nsec < 0 then ⟨sec - 1, nsec + 1000000000⟩ else ⟨sec, nsec⟩
  else ⟨sec, nsec⟩

/-- The constant `unixToInternal + internalToAbsolute` of package `time`. -/
def unixToAbsolute : Int := 9223372028715321600

/-- The constant `absoluteZeroYear` of package `time`. -/
def absoluteZeroYear : Int := -292277022399

/-- The year part of `absDate` of package `time`: the Gregorian year that holds
second `abs` of the absolute time scale (a `uint64`). -/
def absYear (abs : Nat) : Int :=
  let d := abs / 86400
  let n := d / 146097
  let y := 400 * n
  let d := d - 146097 * n
  let n := d / 36524
  let n := n - n / 4
  let y := y + 100 * n
  let d := d - 36524 * n
  let n := d / 1461
  let y := y + 4 * n
  let d := d - 1461 * n
  let n := d / 365
  let n := n - n / 4
  let y := y + n
  (y : Int) + absoluteZeroYear

/-- `Time.Year` of a time whose location has offset `offset s` at Unix second
`s`: `abs` adds the offset and moves to the absolute scale in `uint64`. -/
def Time.yearIn (offset : Int → Int) (t : Time) : Int :=
  absYear ((t.sec + offset t.sec + unixToAbsolute) % 18446744073709551616).toNat

/-- `Time.Year` of a time returned by `time.Unix`, whose location is `Local`. -/
def Time.year (rt : Runtime) (t : Time) : Int :=
  t.yearIn rt.localOffset

/-- The year of the instant on the UTC calendar. -/
def Time.yearUTC (t : Time) : Int :=
  t.yearIn (fun _ => 0)

/-- Nanoseconds from the Unix epoch to the instant. -/
def Time.unixNano (t : Time) : Int :=
  t.sec * 1000000000 + t.nsec

/-- The instant `n` nanoseconds after the Unix epoch (before it when `n` is
negative), with the nanosecond field in `[0, 999999999]`. -/
def instantOfNanos (n : Int) : Time :=
  ⟨n / 1000000000, n % 1000000000⟩

/-- The instant `e` microseconds after the Unix epoch. -/
def instantOfMicros (e : Int) : Time :=
  instantOfNanos (e * 1000)

/-- The instant `e` milliseconds after the Unix epoch. -/
def instantOfMillis (e : Int) : Time :=
  instantOfNanos (e * 1000000)

/-! ## `convertTimestamp` -/

/-- The value of a float with its fraction discarded; `none` for NaN and the
infinities. -/
def F64.trunc : F64 → Option Int
  | .fin m e => some (if 0 ≤ e then m * 2 ^ e.toNat else Int.tdiv m (2 ^ (-e).toNat))
  | .inf _ => none
  | .nan => none

/-- Reduction of an integer to the `int64` range. -/
def wrap64 (x : Int) : Int :=
  (x + 9223372036854775808) % 18446744073709551616 - 9223372036854775808

/-- The conversion `int64(n)` of a `float64`. -/
def toInt64 (rt : Runtime) (f : F64) : Int :=
  match f.trunc with
  | some t =>
    if -9223372036854775808 ≤ t ∧ t ≤ 9223372036854775807 then t
    else wrap64 (rt.outOfRange f)
  | none => wrap64 (rt.outOfRange f)

/-- `convertTimestamp` of `consumer.go`. -/
def convertTimestamp (rt : Runtime) (v : Value) : Value :=
  match v with
  | .null => .null
  | .num n =>
    let epoch := toInt64 rt n
    if epoch = 0 then v
    else
      let asUsec := unix (Int.tdiv epoch 1000000) (Int.tmod epoch 1000000 * 1000)
      if asUsec.year rt ≥ 2000 ∧ asUsec.year rt ≤ 2100 then .time asUsec
      else .time (unix (Int.tdiv epoch 1000) (Int.tmod epoch 1000 * 1000000))
  | _ => v

/-! ## Shared state, statements and the per-call outcomes -/

/-- A statement handed to `db.Exec` with its arguments.

For `upsert`, `cols`, `phs` and `ups` are the slices the loop of `upsert` builds:
the entry `k` of `cols` stands for the text `"k"` (quoted), the entry `i` of
`phs` for `$i`, and the entry `(k, i)` of `ups` for `"k"=$i`; `vals` are the
arguments. `delete table id` is `DELETE FROM table WHERE id=$1` with argument `id`. -/
inductive Stmt where
  | upsert (table : String) (cols : List String) (phs : List Nat)
      (ups : List (String × Nat)) (vals : List Value)
  | delete (table : String) (id : Value)
deriving DecidableEq

/-- The query text `q` that `fmt.Sprintf` and `strings.Join` produce. -/
def Stmt.text : Stmt → String
  | .upsert table cols phs ups _ =>
    "INSERT INTO " ++ table ++ " ("
      ++ String.intercalate "," (cols.map fun k => "\"" ++ k ++ "\"")
      ++ ") VALUES ("
      ++ String.intercalate "," (phs.map fun i => "$" ++ toString i)
      ++ ") ON CONFLICT (id) DO UPDATE SET "
      ++ String.intercalate "," (ups.map fun ki => "\"" ++ ki.1 ++ "\"=$" ++ toString ki.2)
  | .delete table _ => "DELETE FROM " ++ table ++ " WHERE id=$1"

/-- The mutable state of the writer process that the applier touches.

* `written`: the package variable `written` (an `int64`).
* `tsCache`: the package variable `tsCache`, table name to set of column names.
* `execs`: the statements passed to `db.Exec` so far, oldest first.
* `queries`: the tables for which the catalog query of `getTimestampColumns`
  was sent so far, oldest first. -/
structure State where
  written : Int
  tsCache : List (String × List String)
  execs : List Stmt
  queries : List String
deriving DecidableEq

/-- The state of a fresh process. -/
def State.init : State := ⟨0, [], [], []⟩

/-- What the outside does during one call of the applier.

* `openOk`: `sql.Open` returned a nil error.
* `execOk q`: `db.Exec` of `q` returned a nil error.
* `catalog t`: the column names the catalog query for `t` yields, `none` when
  `db.Query` returned an error.
* `rangeOrder m`: the order in which `for k, v := range m` visits the entries
  of `m` (Go leaves it unspecified; it is some arrangement of the entries). -/
structure Call where
  openOk : Bool
  execOk : Stmt → Bool
  catalog : String → Option (List String)
  rangeOrder : GoMap → List (String × Value)

/-! ## `getTimestampColumns` -/

/-- `getTimestampColumns` of `consumer.go`, run under the mutex: a cached set is
returned as it is; otherwise the catalog is queried and the set found (the empty
set when the query fails) is stored and returned. -/
def getTimestampColumns (c : Call) (table : String) (s : State) : List String × State :=
  match s.tsCache.lookup table with
  | some cols => (cols, s)
  | none =>
    match c.catalog table with
    | none =>
      ([], { s with tsCache := (table, []) :: s.tsCache, queries := s.queries ++ [table] })
    | some names =>
      (names, { s with tsCache := (table, names) :: s.tsCache,
                       queries := s.queries ++ [table] })

/-- A sequence of calls of `getTimestampColumns`, each with the outcomes of its
own moment. -/
def getTimestampColumnsSeq (calls : List (Call × String)) (s : State) : State :=
  calls.foldl (fun st ct => (getTimestampColumns ct.1 ct.2 st).2) s

/-- The invariant of the cache and the query log: no table was queried twice,
and every table queried is in the cache. -/
def QueriedOnce (s : State) : Prop :=
  ∀ t, s.queries.count t ≤ 1 ∧ (t ∈ s.queries → s.tsCache.lookup t ≠ none)

/-! ## `upsert` and `del` -/

/-- The local slices `cols`, `phs`, `ups`, `vals` and the counter `i` of `upsert`. -/
structure Build where
  cols : List String
  phs : List Nat
  ups : List (String × Nat)
  vals : List Value
  i : Nat
deriving DecidableEq

/-- The argument `upsert` appends to `vals` for the entry `k, v`: the converted
value when `tsCols[k]` is true, the raw value otherwise. -/
def argOf (rt : Runtime) (tsCols : List String) (kv : String × Value) : Value :=
  if kv.1 ∈ tsCols then convertTimestamp rt kv.2 else kv.2

/-- One iteration of the loop `for k, v := range data` of `upsert`. -/
def upsertStep (rt : Runtime) (tsCols : List String) (b : Build) (kv : String × Value) :
    Build :=
  { cols := b.cols ++ [kv.1]
    phs := b.phs ++ [b.i]
    ups := if kv.1 ≠ "id" then b.ups ++ [(kv.1, b.i)] else b.ups
    vals := b.vals ++ [argOf rt tsCols kv]
    i := b.i + 1 }

/-- The whole loop of `upsert` over the entries in the order `range` yields them. -/
def upsertBuild (rt : Runtime) (tsCols : List String) (entries : List (String × Value)) :
    Build :=
  entries.foldl (upsertStep rt tsCols) ⟨[], [], [], [], 1⟩

/-- `upsert` of `consumer.go`. -/
def upsert (rt : Runtime) (c : Call) (table : String) (data : GoMap) (s : State) : State :=
  let r := getTimestampColumns c table s
  let b := upsertBuild rt r.1 (c.rangeOrder data)
  if b.ups.length = 0 then r.2
  else
    let q := Stmt.upsert table b.cols b.phs b.ups b.vals
    if c.execOk q then
      { r.2 with execs := r.2.execs ++ [q], written := wrap64 (r.2.written + 1) }
    else
      { r.2 with execs := r.2.execs ++ [q] }

/-- `del` of `consumer.go`: the result of `db.Exec` is not looked at. -/
def del (_c : Call) (table : String) (data : GoMap) (s : State) : State :=
  let id := data.get "id"
  { s with execs := s.execs ++ [Stmt.delete table id], written := wrap64 (s.written + 1) }

/-! ## `applyToPostgres2` -/

/-- `json.Unmarshal(value, &ev)` with `ev` a `map[string]interface{}`: an object
fills the map, JSON `null` leaves the nil map without an error, any other JSON
value and any invalid input is an error (`none`). -/
def unmarshalMap (rt : Runtime) (value : List UInt8) : Option GoMap :=
  match rt.jsonDecode value with
  | some (.obj m) => some m
  | some .null => some []
  | _ => none

/-- The record `p` of `applyToPostgres2`: the member `payload` of the decoded
object when that member is an object, the decoded object itself otherwise. -/
def record (ev : GoMap) : GoMap :=
  match (ev.get "payload").asMap with
  | some pp => pp
  | none => ev

/-- Where `applyToPostgres2` sends an event. -/
inductive Route where
  | upsert (after : GoMap)
  | del (before : GoMap)
  | drop
deriving DecidableEq

/-- The control flow of `applyToPostgres2` up to the calls of `upsert` and `del`. -/
def route (rt : Runtime) (c : Call) (value : List UInt8) : Route :=
  match unmarshalMap rt value with
  | none => .drop
  | some ev =>
    let p := record ev
    let op := (p.get "op").asString
    let after := (p.get "after").asMap
    let before := (p.get "before").asMap
    if c.openOk = false then .drop
    else if op = "c" ∨ op = "r" ∨ op = "u" then
      match after with
      | some a => .upsert a
      | none => .drop
    else if op = "d" then
      match before with
      | some b => .del b
      | none => .drop
    else .drop

/-- `applyToPostgres2` of `consumer.go`. -/
def applyToPostgres2 (rt : Runtime) (c : Call) (table : String) (value : List UInt8)
    (s : State) : State :=
  match route rt c value with
  | .upsert after => upsert rt c table after s
  | .del before => del c table before s
  | .drop => s

/-! ## The replica as tables keyed by `id`

The SQL engine and the schema of the replica are outside the sources. The two
statements are given the meaning of their text:
`INSERT ... ON CONFLICT (id) DO UPDATE SET ...` stores the row bound to the
named columns, or, when a row with the same `id` is there, overwrites in it the
columns of the `SET` list; `DELETE ... WHERE id=$1` removes the row with that
`id`.

The column `id` has a default: `verify.go` inserts into `devices`, `alerts` and
`groups` without naming `id`, and the replica is restored from a dump of the
same schema. The default is modelled as the sequence of a serial column: an
`INSERT` that names no `id` column takes the next value of the sequence of its
table as `id`. An `INSERT` that binds NULL to `id` stores nothing (a primary key
admits no NULL), and a `DELETE` comparing with NULL matches nothing. -/

/-- A stored row: column name to value. -/
abbrev Row := String → Option Value

/-- A table: primary key to row. -/
abbrev Table := Value → Option Row

/-- The replica database: the rows of each table, and for each table the next
value of the sequence behind the default of its `id` column. -/
structure Replica where
  rows : String → Table
  nextId : String → Int

/-- The argument bound to placeholder `$i`. -/
def param (vals : List Value) (i : Nat) : Value :=
  (vals.get? (i - 1)).getD .null

/-- The row `INSERT INTO t (cols) VALUES (phs)` proposes, default columns left
out. -/
def insertRow (cols : List String) (phs : List Nat) (vals : List Value) : Row :=
  fun col => ((cols.zip phs).lookup col).map (param vals)

/-- The row `DO UPDATE SET ups` leaves in place of the row `old`. -/
def setRow (ups : List (String × Nat)) (vals : List Value) (old : Row) : Row :=
  fun col =>
    match ups.lookup col with
    | some i => some (param vals i)
    | none => old col

/-- The row `new` with the column `id` set to `key`. -/
def withId (key : Value) (new : Row) : Row :=
  fun col => if col = "id" then some key else new col

/-- The effect of a statement that the replica accepts. -/
def Stmt.apply (q : Stmt) (r : Replica) : Replica :=
  match q with
  | .upsert table cols phs ups vals =>
    match insertRow cols phs vals "id" with
    | none =>
      let key : Value := .num (.fin (r.nextId table) 0)
      let row : Row :=
        match r.rows table key with
        | some old => setRow ups vals old
        | none => withId key (insertRow cols phs vals)
      { rows := Function.update r.rows table (Function.update (r.rows table) key (some row))
        nextId := Function.update r.nextId table (r.nextId table + 1) }
    | some key =>
      if key = .null then r
      else
        let row : Row :=
          match r.rows table key with
          | some old => setRow ups vals old
          | none => insertRow cols phs vals
        { rows := Function.update r.rows table
            (Function.update (r.rows table) key (some row))
          nextId := r.nextId }
  | .delete table id =>
    if id = .null then r
    else
      { rows := Function.update r.rows table (Function.update (r.rows table) id none)
        nextId := r.nextId }

/-- The replica after every statement of a list has taken effect, oldest first. -/
def replay (log : List Stmt) (r : Replica) : Replica :=
  log.foldl (fun acc q => q.apply acc) r

/-! ## The startup sequence (`main.go`, `replication.go`) -/

/-- What the outside does during startup.

* `pg1Ready`, `pg2Ready`, `kafkaReady`, `debeziumReady`, `connectorRunning`: the
  waiter saw its service before its last attempt ran out.
* `slot`: what `Scan` on the slot-creation query read, name and position;
  `none` when it returned an error.
* `dumpOk`, `restoreOk`: `cmd.Run()` of `pg_dump`, of `pg_restore`, returned a
  nil error (exit status 0).
* `dumpStat`: `os.Stat` on the dump file found it.
* `dumpDur`, `restoreDur`: the elapsed times measured.
* `deployOk`: the connector request was answered with status 200 or 201. -/
structure Boot where
  pg1Ready : Bool
  pg2Ready : Bool
  kafkaReady : Bool
  debeziumReady : Bool
  slot : Option (String × String)
  dumpOk : Bool
  dumpStat : Bool
  dumpDur : Int
  restoreOk : Bool
  restoreDur : Int
  deployOk : Bool
  connectorRunning : Bool

/-- What the process does, in order. -/
inductive Event where
  | ready (service : String)
  | slotRequested
  | slotCreated (lsn : String)
  | dumpStarted
  | dumpFinished
  | restoreStarted (dumpFile : String)
  | restoreFinished
  | connectorDeployed
  | consumerStarted (topic table : String)
  | aborted
deriving DecidableEq, Repr

/-- A run of a piece of the startup code: what it did, and the value it
returned, `none` when it ended the process (`log.Fatal`, `log.Fatalf`, a
panic). -/
structure Run (α : Type) where
  trace : List Event
  result : Option α

/-- A step that returns without doing anything observable. -/
def Run.pure {α : Type} (a : α) : Run α := ⟨[], some a⟩

/-- Sequencing: the second step runs only when the first returned. -/
def Run.bind {α β : Type} (x : Run α) (f : α → Run β) : Run β :=
  match x.result with
  | none => ⟨x.trace, none⟩
  | some a => ⟨x.trace ++ (f a).trace, (f a).result⟩

/-- A waiter (`waitForPG`, `waitForHost`, `waitForKafka`, `waitForDebezium`,
`waitForConnector`): returns when the service was seen, ends the process on
timeout. -/
def waitFor (service : String) (seen : Bool) : Run Unit :=
  if seen then ⟨[.ready service], some ()⟩ else ⟨[.aborted], none⟩

/-- `createSlot` of `replication.go`. -/
def createSlot (w : Boot) : Run String :=
  match w.slot with
  | none => ⟨[.slotRequested, .aborted], none⟩
  | some (_, l) => ⟨[.slotRequested, .slotCreated l], some l⟩

/-- `pgDump` of `replication.go`. -/
def pgDump (w : Boot) : Run (String × Int) :=
  if w.dumpOk then
    if w.dumpStat then ⟨[.dumpStarted, .dumpFinished], some ("/tmp/omedb.dump", w.dumpDur)⟩
    else ⟨[.dumpStarted, .dumpFinished, .aborted], none⟩
  else ⟨[.dumpStarted, .aborted], none⟩

/-- `pgRestore` of `replication.go`: the result of `cmd.Run()` is not looked at. -/
def pgRestore (w : Boot) (df : String) : Run Int :=
  ⟨[.restoreStarted df, .restoreFinished], some w.restoreDur⟩

/-- `deployConnector` of `connector.go`. -/
def deployConnector (w : Boot) : Run Unit :=
  if w.deployOk then ⟨[.connectorDeployed], some ()⟩ else ⟨[.aborted], none⟩

/-- The variable `tables` of `config.go`. -/
def tables : List String :=
  ["device_types", "devices", "device_inventory", "groups", "group_memberships",
   "alert_categories", "alerts", "device_health", "firmware_catalog",
   "compliance_baselines", "compliance_results", "users", "job_history"]

/-- The loop of `main` that starts one consumer goroutine per table. -/
def startConsumers : Run Unit :=
  ⟨tables.map fun t => .consumerStarted ("ome.public." ++ t) t, some ()⟩

/-- The startup sequence of `main`, steps 1 to 9: it returns the slot position
and the two durations that the summary prints. -/
def startup (w : Boot) : Run (String × Int × Int) :=
  (waitFor "postgres1" w.pg1Ready).bind fun _ =>
  (waitFor "postgres2" w.pg2Ready).bind fun _ =>
  (waitFor "kafka" w.kafkaReady).bind fun _ =>
  (waitFor "debezium" w.debeziumReady).bind fun _ =>
  (createSlot w).bind fun slotLSN =>
  (pgDump w).bind fun dump =>
  (pgRestore w dump.1).bind fun restoreDur =>
  (deployConnector w).bind fun _ =>
  (waitFor "connector" w.connectorRunning).bind fun _ =>
  startConsumers.bind fun _ =>
  Run.pure (slotLSN, dump.2, restoreDur)

/-- The runtime of a process whose time zone is one hour east of UTC (it decodes
no JSON and converts unrepresentable floats to 0). -/
def oneHourEast : Runtime := ⟨fun _ => 3600, fun _ => 0, fun _ => none⟩

/-! ## Sample inputs -/

/-- The bytes of the JSON text of a delete event for the row with `id` 7,
`{"op":"d","before":{"id":7},"after":null}`. -/
def deleteEventBytes : List UInt8 :=
  [123, 34, 111, 112, 34, 58, 34, 100, 34, 44, 34, 98, 101, 102, 111, 114,
   101, 34, 58, 123, 34, 105, 100, 34, 58, 55, 125, 44, 34, 97, 102, 116,
   101, 114, 34, 58, 110, 117, 108, 108, 125]

/-- The members of the object that `deleteEventBytes` spells. -/
def deleteRecord : GoMap :=
  [("op", .str "d"), ("before", .obj [("id", .num (.fin 7 0))]), ("after", .null)]

/-- What `encoding/json` decodes `deleteEventBytes` into. -/
def deleteEvent : Value := .obj deleteRecord

/-- The bytes of the JSON text of an update event in its envelope,
`{"payload":{"op":"u","before":null,"after":{"id":7,"name":"r750","updated_at":1700000000000000}}}`. -/
def updateEventBytes : List UInt8 :=
  [123, 34, 112, 97, 121, 108, 111, 97, 100, 34, 58, 123, 34, 111, 112, 34,
   58, 34, 117, 34, 44, 34, 98, 101, 102, 111, 114, 101, 34, 58, 110, 117,
   108, 108, 44, 34, 97, 102, 116, 101, 114, 34, 58, 123, 34, 105, 100, 34,
   58, 55, 44, 34, 110, 97, 109, 101, 34, 58, 34, 114, 55, 53, 48, 34,
   44, 34, 117, 112, 100, 97, 116, 101, 100, 95, 97, 116, 34, 58, 49, 55,
   48, 48, 48, 48, 48, 48, 48, 48, 48, 48, 48, 48, 48, 48, 125, 125,
   125]

/-- The after-image of `updateEventBytes`. -/
def updateImage : GoMap :=
  [("id", .num (.fin 7 0)), ("name", .str "r750"),
   ("updated_at", .num (.fin 1700000000000000 0))]

/-- What `encoding/json` decodes `updateEventBytes` into. -/
def updateEvent : Value :=
  .obj [("payload", .obj [("op", .str "u"), ("before", .null), ("after", .obj updateImage)])]

/-- A runtime in UTC whose decoder knows `deleteEventBytes` and `updateEventBytes`. -/
def utcRuntime : Runtime :=
  ⟨fun _ => 0, fun _ => 0, fun b =>
    if b = deleteEventBytes then some deleteEvent
    else if b = updateEventBytes then some updateEvent
    else none⟩

/-- A call during which the replica opens and accepts every statement, the
catalog names `updated_at` as the one temporal column of every table, and
`range` visits a map last entry first. -/
def workingReplica : Call :=
  ⟨true, fun _ => true, fun _ => some ["updated_at"], fun m => m.reverse⟩

/-- A call during which the replica opens and rejects every statement and every
catalog query. -/
def failingWrites : Call := ⟨true, fun _ => false, fun _ => none, fun m => m⟩

/-- The startup sequence of `main` up to the return of `createSlot`, steps 1 to 5. -/
def beforeDump (w : Boot) : Run String :=
  (waitFor "postgres1" w.pg1Ready).bind fun _ =>
  (waitFor "postgres2" w.pg2Ready).bind fun _ =>
  (waitFor "kafka" w.kafkaReady).bind fun _ =>
  (waitFor "debezium" w.debeziumReady).bind fun _ =>
  createSlot w

/-! ## Insert-or-overwrite, stated on rows -/

/-- The row an after-image proposes: each column of the image with the
argument `upsert` passes for it. -/
def boundRow (rt : Runtime) (tsCols : List String) (data : GoMap) : Row :=
  fun col => (data.lookup col).map fun v => argOf rt tsCols (col, v)

/-- The row `old` with every column of `new` other than `id` overwritten. -/
def overwrite (new old : Row) : Row :=
  fun col =>
    if col = "id" then old col
    else
      match new col with
      | some v => some v
      | none => old col

/-- Insert the row `new` under its `id`, or overwrite the non-key columns of the
row already stored under that `id`. A row without `id` gets the next value of
the sequence of the table as `id`; a row with a NULL `id` is not stored. -/
def upsertRow (table : String) (new : Row) (r : Replica) : Replica :=
  match new "id" with
  | none =>
    let key : Value := .num (.fin (r.nextId table) 0)
    let row : Row :=
      match r.rows table key with
      | some old => overwrite new old
      | none => withId key new
    { rows := Function.update r.rows table (Function.update (r.rows table) key (some row))
      nextId := Function.update r.nextId table (r.nextId table + 1) }
  | some key =>
    if key = .null then r
    else
      let row : Row :=
        match r.rows table key with
        | some old => overwrite new old
        | none => new
      { rows := Function.update r.rows table (Function.update (r.rows table) key (some row))
        nextId := r.nextId }

/-- A startup during which everything succeeds except `pg_restore`, which exits
with a nonzero status. -/
def restoreFails : Boot :=
  ⟨true, true, true, true, some ("debezium_slot", "0/16B3748"), true, true, 10, false, 42,
   true, true⟩

/-- A startup during which the source rejects the creation of the slot. -/
def slotRejected : Boot :=
  ⟨true, true, true, true, none, true, true, 10, true, 42, true, true⟩

/-! ## Sequences of applier activity -/

/-- One thing a consumer does to the shared state: a call of
`getTimestampColumns`, of `upsert`, of `del` or of `applyToPostgres2`, each with
the outcomes of its own moment. -/
inductive Step where
  | columns (c : Call) (table : String)
  | upsert (c : Call) (table : String) (data : GoMap)
  | del (c : Call) (table : String) (data : GoMap)
  | apply (c : Call) (table : String) (value : List UInt8)

/-- The state after one step. -/
def Step.run (rt : Runtime) (x : Step) (s : State) : State :=
  match x with
  | .columns c table => (getTimestampColumns c table s).2
  | .upsert c table data => Writer.upsert rt c table data s
  | .del c table data => Writer.del c table data s
  | .apply c table value => applyToPostgres2 rt c table value s

/-- The state after a sequence of steps, oldest first. -/
def runSteps (rt : Runtime) (steps : List Step) (s : State) : State :=
  steps.foldl (fun st x => x.run rt st) s

/-- The bytes of the JSON text of the delete event of row 7 in its envelope,
`{"payload":{"op":"d","before":{"id":7},"after":null}}`. -/
def wrappedDeleteBytes : List UInt8 :=
  [123, 34, 112, 97, 121, 108, 111, 97, 100, 34, 58, 123, 34, 111, 112, 34,
   58, 34, 100, 34, 44, 34, 98, 101, 102, 111, 114, 101, 34, 58, 123, 34,
   105, 100, 34, 58, 55, 125, 44, 34, 97, 102, 116, 101, 114, 34, 58, 110,
   117, 108, 108, 125, 125]

/-- A runtime in UTC whose decoder knows the delete event of row 7 bare
(`deleteEventBytes`) and in its envelope (`wrappedDeleteBytes`). -/
def envelopeRuntime : Runtime :=
  ⟨fun _ => 0, fun _ => 0, fun b =>
    if b = deleteEventBytes then some (.obj deleteRecord)
    else if b = wrappedDeleteBytes then some (.obj [("payload", .obj deleteRecord)])
    else none⟩

/-- The bytes of the JSON text of a create event whose after-image is the key
alone, `{"op":"c","after":{"id":7}}`. -/
def keyOnlyBytes : List UInt8 :=
  [123, 34, 111, 112, 34, 58, 34, 99, 34, 44, 34, 97, 102, 116, 101, 114,
   34, 58, 123, 34, 105, 100, 34, 58, 55, 125, 125]

/-- A runtime in UTC whose decoder knows `keyOnlyBytes`. -/
def keyOnlyRuntime : Runtime :=
  ⟨fun _ => 0, fun _ => 0, fun b =>
    if b = keyOnlyBytes
    then some (.obj [("op", .str "c"), ("after", .obj [("id", .num (.fin 7 0))])])
    else none⟩

/-! ## Delivering an event to the replica -/

/-- One delivery of an event: `applyToPostgres2` runs on the state of the
process, and the statements it handed to `db.Exec` during this call take effect
on the replica when the replica accepted them. -/
def deliver (rt : Runtime) (c : Call) (table : String) (value : List UInt8)
    (sr : State × Replica) : State × Replica :=
  (applyToPostgres2 rt c table value sr.1,
   replay (((applyToPostgres2 rt c table value sr.1).execs.drop sr.1.execs.length).filter
     c.execOk) sr.2)

/-- A replica without rows whose sequences stand at 1. -/
def emptyReplica : Replica := ⟨fun _ _ => none, fun _ => 1⟩

/-- The bytes of the JSON text of a create event whose after-image has no `id`,
`{"op":"c","after":{"name":"x"}}`. -/
def noIdBytes : List UInt8 :=
  [123, 34, 111, 112, 34, 58, 34, 99, 34, 44, 34, 97, 102, 116, 101, 114,
   34, 58, 123, 34, 110, 97, 109, 101, 34, 58, 34, 120, 34, 125, 125]

/-- A runtime in UTC whose decoder knows `noIdBytes` and `updateEventBytes`. -/
def noIdRuntime : Runtime :=
  ⟨fun _ => 0, fun _ => 0, fun b =>
    if b = noIdBytes
    then some (.obj [("op", .str "c"), ("after", .obj [("name", .str "x")])])
    else if b = updateEventBytes then some updateEvent
    else none⟩


/-- A call during which the replica opens and accepts every statement, the
catalog query fails, and `range` visits a map first entry first. -/
def plainReplica : Call := ⟨true, fun _ => true, fun _ => none, fun m => m⟩

/-! # Theorems -/

/-! ## Arithmetic of truncated division and of `time.Unix` -/

theorem tdiv_tmod_cases (e k : Int) (hk : 0 < k) :
    (0 ≤ e ∧ Int.tdiv e k = e / k ∧ Int.tmod e k = e % k) ∨
      (e < 0 ∧ Int.tdiv e k = -((-e) / k) ∧ Int.tmod e k = -((-e) % k)) := by
  rcases le_or_lt 0 e with h | h
  · left
    exact ⟨h, Int.tdiv_eq_ediv h (le_of_lt hk), Int.tmod_eq_emod h (le_of_lt hk)⟩
  · right
    have hn : 0 ≤ -e := by omega
    have h1 : Int.tdiv (-(-e)) k = -(Int.tdiv (-e) k) := Int.neg_tdiv (-e) k
    rw [neg_neg, Int.tdiv_eq_ediv hn (le_of_lt hk)] at h1
    refine ⟨h, h1, ?_⟩
    rw [Int.tmod_def, h1, Int.emod_def]
    ring

/-- What `time.Unix` returns when the nanosecond argument is within one second
of zero on either side. -/
theorem unix_small (sec nsec : Int) (h1 : -1000000000 < nsec) (h2 : nsec < 1000000000) :
    unix sec nsec = instantOfNanos (sec * 1000000000 + nsec) := by
  unfold unix instantOfNanos
  rcases tdiv_tmod_cases nsec 1000000000 (by norm_num) with ⟨h0, hd, _⟩ | ⟨h0, hd, _⟩
  · rw [if_neg (by omega)]
    rw [Time.mk.injEq]
    constructor <;> omega
  · rw [if_pos (by omega)]
    simp only [hd]
    have hz : (-nsec) / 1000000000 = 0 := by omega
    rw [hz]
    simp only [neg_zero, zero_mul, sub_zero, add_zero]
    rw [if_pos h0, Time.mk.injEq]
    constructor <;> omega

/-- The microsecond reading built by `convertTimestamp` is the instant that many
microseconds from the epoch, for either sign of `e`. -/
theorem unix_micros (e : Int) :
    unix (Int.tdiv e 1000000) (Int.tmod e 1000000 * 1000) = instantOfMicros e := by
  have h := tdiv_tmod_cases e 1000000 (by norm_num)
  rw [unix_small _ _ (by omega) (by omega)]
  unfold instantOfMicros
  congr 1
  omega

/-- The millisecond reading built by `convertTimestamp` is the instant that many
milliseconds from the epoch, for either sign of `e`. -/
theorem unix_millis (e : Int) :
    unix (Int.tdiv e 1000) (Int.tmod e 1000 * 1000000) = instantOfMillis e := by
  have h := tdiv_tmod_cases e 1000 (by norm_num)
  rw [unix_small _ _ (by omega) (by omega)]
  unfold instantOfMillis
  congr 1
  omega

/-- The instant built from a nanosecond count has that count and a nanosecond
field inside the second. -/
theorem instantOfNanos_spec (n : Int) :
    (instantOfNanos n).unixNano = n ∧ 0 ≤ (instantOfNanos n).nsec ∧
      (instantOfNanos n).nsec < 1000000000 := by
  unfold instantOfNanos Time.unixNano
  simp only []
  omega


/-- The years 2000 to 2100 on the absolute scale of package `time`. -/
theorem absYear_range (a : Nat) :
    (2000 ≤ absYear a ∧ absYear a ≤ 2100) ↔
      (9223372028715321600 + 946684800 ≤ a ∧ a < 9223372028715321600 + 4133980800) := by
  unfold absYear absoluteZeroYear
  simp only []
  generalize hd : a / 86400 = d
  generalize hn1 : d / 146097 = n1
  generalize hd1 : d - 146097 * n1 = d1
  generalize hn2 : d1 / 36524 = n2
  have h2 : n2 ≤ 4 := by omega
  generalize hd2 : d1 - 36524 * (n2 - n2 / 4) = d2
  generalize hn3 : d2 / 1461 = n3
  generalize hd3 : d2 - 1461 * n3 = d3
  generalize hn4 : d3 / 365 = n4
  have h4 : n4 ≤ 4 := by omega
  interval_cases n2 <;> interval_cases n4 <;> omega

/-- For a time whose seconds fit an `int64` and a zone offset of at most a day,
the year read in that zone is in 2000..2100 exactly when the zone's wall clock
is between 2000-01-01T00:00:00 and 2100-12-31T23:59:59. -/
theorem yearIn_range (offset : Int → Int) (t : Time)
    (hz : -86400 ≤ offset t.sec ∧ offset t.sec ≤ 86400)
    (ht : -9223372036854775808 ≤ t.sec ∧ t.sec ≤ 9223372036854775807) :
    (2000 ≤ t.yearIn offset ∧ t.yearIn offset ≤ 2100) ↔
      (946684800 ≤ t.sec + offset t.sec ∧ t.sec + offset t.sec < 4133980800) := by
  unfold Time.yearIn unixToAbsolute
  rw [absYear_range]
  omega

/-- The truncation of an integer-valued float in the `int64` range is the integer. -/
theorem toInt64_int (rt : Runtime) (u : Int)
    (hu : -9223372036854775808 ≤ u ∧ u ≤ 9223372036854775807) :
    toInt64 rt (.fin u 0) = u := by
  simp [toInt64, F64.trunc, hu.1, hu.2]

/-- A float with mantissa zero truncates to zero. -/
theorem toInt64_zero (rt : Runtime) (e : Int) : toInt64 rt (.fin 0 e) = 0 := by
  simp [toInt64, F64.trunc]

/-! ## The slices built by `upsert` -/

/-- The loop of `upsert` from any intermediate state of its slices. -/
theorem foldl_upsertStep (rt : Runtime) (ts : List String) (es : List (String × Value)) :
    ∀ b : Build, es.foldl (upsertStep rt ts) b =
      ⟨b.cols ++ es.map Prod.fst,
       b.phs ++ List.range' b.i es.length,
       b.ups ++ ((es.map Prod.fst).zip (List.range' b.i es.length)).filter
          (fun ki => ki.1 ≠ "id"),
       b.vals ++ es.map (argOf rt ts),
       b.i + es.length⟩ := by
  induction es with
  | nil => intro b; simp
  | cons kv es ih =>
    intro b
    rw [List.foldl_cons, ih]
    by_cases hk : kv.1 = "id"
    · simp [upsertStep, hk, List.range'_succ, Nat.add_comm 1, Nat.add_assoc]
    · simp [upsertStep, hk, List.range'_succ, Nat.add_comm 1, Nat.add_assoc]

/-- The slices `upsert` ends with. -/
theorem upsertBuild_eq (rt : Runtime) (ts : List String) (es : List (String × Value)) :
    upsertBuild rt ts es =
      ⟨es.map Prod.fst, List.range' 1 es.length,
       ((es.map Prod.fst).zip (List.range' 1 es.length)).filter (fun ki => ki.1 ≠ "id"),
       es.map (argOf rt ts), 1 + es.length⟩ := by
  unfold upsertBuild
  rw [foldl_upsertStep]
  simp

/-! ## Lookup in maps and in the slices -/

/-- First-match lookup at a key, head compared. -/
theorem lookup_cons_eq {β : Type} (a k : String) (b : β) (es : List (String × β)) :
    ((k, b) :: es).lookup a = if a = k then some b else es.lookup a := by
  rw [List.lookup_cons]
  by_cases h : a = k
  · simp [h]
  · have hb : (a == k) = false := by simpa using h
    rw [hb, if_neg h]

/-- In a map with distinct keys, lookup finds exactly the entries. -/
theorem lookup_eq_some_iff_mem {β : Type} (a : String) (v : β) :
    ∀ es : List (String × β), (es.map Prod.fst).Nodup →
      (es.lookup a = some v ↔ (a, v) ∈ es) := by
  intro es
  induction es with
  | nil => intro _; simp
  | cons kb es ih =>
    obtain ⟨k, b⟩ := kb
    intro hn
    rw [List.map_cons, List.nodup_cons] at hn
    rw [lookup_cons_eq]
    by_cases h : a = k
    · subst h
      rw [if_pos rfl]
      constructor
      · intro hv
        cases hv
        exact List.mem_cons_self _ _
      · intro hm
        rcases List.mem_cons.1 hm with h1 | h1
        · cases h1; rfl
        · exact absurd (List.mem_map_of_mem Prod.fst h1) hn.1
    · rw [if_neg h, ih hn.2]
      constructor
      · exact fun hm => List.mem_cons_of_mem _ hm
      · intro hm
        rcases List.mem_cons.1 hm with h1 | h1
        · cases h1; exact absurd rfl h
        · exact h1

/-- Two arrangements of a map with distinct keys answer every lookup alike. -/
theorem lookup_perm {β : Type} (a : String) (es fs : List (String × β))
    (hp : es.Perm fs) (hn : (fs.map Prod.fst).Nodup) : es.lookup a = fs.lookup a := by
  have hn2 : (es.map Prod.fst).Nodup := (hp.map Prod.fst).nodup_iff.2 hn
  apply Option.ext
  intro v
  rw [Option.mem_def, Option.mem_def, lookup_eq_some_iff_mem a v es hn2,
    lookup_eq_some_iff_mem a v fs hn, hp.mem_iff]

/-- Dropping the entries of key `id` does not change the lookup of other keys. -/
theorem lookup_filter_ne_id {β : Type} (a : String) (ha : a ≠ "id") :
    ∀ l : List (String × β),
      (l.filter (fun ki => ki.1 ≠ "id")).lookup a = l.lookup a := by
  intro l
  induction l with
  | nil => rfl
  | cons kb l ih =>
    obtain ⟨k, b⟩ := kb
    by_cases hk : k = "id"
    · subst hk
      rw [List.filter_cons_of_neg (by simp), ih, lookup_cons_eq, if_neg ha]
    · rw [List.filter_cons_of_pos (by simp [hk]), lookup_cons_eq, lookup_cons_eq, ih]

/-- After dropping the entries of key `id`, that key is not found. -/
theorem lookup_filter_id {β : Type} :
    ∀ l : List (String × β), (l.filter (fun ki => ki.1 ≠ "id")).lookup "id" = none := by
  intro l
  induction l with
  | nil => rfl
  | cons kb l ih =>
    obtain ⟨k, b⟩ := kb
    by_cases hk : k = "id"
    · subst hk
      rw [List.filter_cons_of_neg (by simp), ih]
    · rw [List.filter_cons_of_pos (by simp [hk]), lookup_cons_eq, ih,
        if_neg (fun h => hk h.symm)]

/-- The argument at the placeholder found for a column is the argument built
from the entry of that column. -/
theorem lookup_zip_param (rt : Runtime) (ts : List String) (a : String) :
    ∀ (es : List (String × Value)) (pre : List Value) (s : Nat), s = pre.length + 1 →
      (((es.map Prod.fst).zip (List.range' s es.length)).lookup a).map
          (param (pre ++ es.map (argOf rt ts)))
        = (es.lookup a).map (fun v => argOf rt ts (a, v)) := by
  intro es
  induction es with
  | nil => intro pre s _; rfl
  | cons kb es ih =>
    obtain ⟨k, b⟩ := kb
    intro pre s hs
    rw [List.map_cons, List.map_cons, List.length_cons, List.range'_succ,
      List.zip_cons_cons, lookup_cons_eq, lookup_cons_eq]
    by_cases h : a = k
    · subst h
      rw [if_pos rfl, if_pos rfl]
      have hg : (pre ++ argOf rt ts (a, b) :: es.map (argOf rt ts)).get? pre.length
          = some (argOf rt ts (a, b)) := by
        rw [List.get?_eq_getElem?, List.getElem?_append_right (le_refl _)]
        simp
      subst hs
      simp only [Option.map_some', param, Nat.add_sub_cancel, hg, Option.getD_some]
    · rw [if_neg h, if_neg h]
      have := ih (pre ++ [argOf rt ts (k, b)]) (s + 1) (by simp [hs])
      simpa using this

/-! ## The meaning of the statements `upsert` builds -/

/-- The row proposed by the statement built from any arrangement of an
after-image is the row of converted values of the image. -/
theorem insertRow_build (rt : Runtime) (ts : List String) (es data : List (String × Value))
    (hp : es.Perm data) (hn : (data.map Prod.fst).Nodup) :
    insertRow (upsertBuild rt ts es).cols (upsertBuild rt ts es).phs
      (upsertBuild rt ts es).vals = boundRow rt ts data := by
  funext col
  rw [upsertBuild_eq]
  unfold insertRow boundRow
  have h := lookup_zip_param rt ts col es [] 1 rfl
  rw [List.nil_append] at h
  rw [h, lookup_perm col es data hp hn]

/-- The `SET` list of the statement built from any arrangement of an after-image
overwrites the columns of the image other than `id`. -/
theorem setRow_build (rt : Runtime) (ts : List String) (es data : List (String × Value))
    (hp : es.Perm data) (hn : (data.map Prod.fst).Nodup) (old : Row) :
    setRow (upsertBuild rt ts es).ups (upsertBuild rt ts es).vals old
      = overwrite (boundRow rt ts data) old := by
  funext col
  rw [upsertBuild_eq]
  unfold setRow overwrite boundRow
  by_cases hc : col = "id"
  · subst hc
    simp only [lookup_filter_id, if_pos]
  · simp only [lookup_filter_ne_id col hc, if_neg hc]
    have h := lookup_zip_param rt ts col es [] 1 rfl
    rw [List.nil_append, lookup_perm col es data hp hn] at h
    rw [← h]
    cases ((es.map Prod.fst).zip (List.range' 1 es.length)).lookup col <;> rfl

/-- The statement built from any arrangement of an after-image is an
insert-or-overwrite of the row of the image. -/
theorem apply_build (rt : Runtime) (ts : List String) (table : String)
    (es data : List (String × Value))
    (hp : es.Perm data) (hn : (data.map Prod.fst).Nodup) (r : Replica) :
    (Stmt.upsert table (upsertBuild rt ts es).cols (upsertBuild rt ts es).phs
      (upsertBuild rt ts es).ups (upsertBuild rt ts es).vals).apply r
      = upsertRow table (boundRow rt ts data) r := by
  unfold Stmt.apply upsertRow
  simp only [insertRow_build rt ts es data hp hn, setRow_build rt ts es data hp hn]

/-- Overwriting twice with the same row is overwriting once. -/
theorem overwrite_overwrite (new old : Row) :
    overwrite new (overwrite new old) = overwrite new old := by
  funext col
  unfold overwrite
  by_cases hc : col = "id"
  · simp [hc]
  · simp only [if_neg hc]
    cases new col <;> rfl

/-- Overwriting a row with itself changes nothing. -/
theorem overwrite_self (new : Row) : overwrite new new = new := by
  funext col
  unfold overwrite
  by_cases hc : col = "id"
  · simp [hc]
  · simp only [if_neg hc]
    cases new col <;> rfl

/-- Insert-or-overwrite of a row that carries an `id`, done twice, is
insert-or-overwrite done once. -/
theorem upsertRow_idem (table : String) (new : Row) (r : Replica) (hid : new "id" ≠ none) :
    upsertRow table new (upsertRow table new r) = upsertRow table new r := by
  unfold upsertRow
  rcases hk : new "id" with _ | key
  · exact absurd hk hid
  · simp only []
    by_cases hnull : key = .null
    · simp only [if_pos hnull]
    · simp only [if_neg hnull, Function.update_same, Function.update_idem]
      rcases hold : r.rows table key with _ | old
      · simp only [overwrite_self]
      · simp only [overwrite_overwrite]

/-- The row of an image that has an `id` column carries an `id`. -/
theorem boundRow_id (rt : Runtime) (ts : List String) (data : GoMap)
    (hid : "id" ∈ data.map Prod.fst) : boundRow rt ts data "id" ≠ none := by
  unfold boundRow
  rcases hl : data.lookup "id" with _ | v
  · rw [List.lookup_eq_none_iff] at hl
    rw [List.mem_map] at hid
    obtain ⟨kv, hkv, hk⟩ := hid
    have := hl kv hkv
    simp [hk] at this
  · simp

/-- Deleting by `id` twice is deleting once. -/
theorem apply_delete_idem (table : String) (id : Value) (r : Replica) :
    (Stmt.delete table id).apply ((Stmt.delete table id).apply r)
      = (Stmt.delete table id).apply r := by
  unfold Stmt.apply
  by_cases hnull : id = .null
  · simp only [if_pos hnull]
  · simp only [if_neg hnull, Function.update_same, Function.update_idem]

/-! ## The cache and the log under `upsert` and `del` -/

/-- After a call, the cache holds for the table the set the call returned. -/
theorem getTimestampColumns_stored (c : Call) (table : String) (s : State) :
    (getTimestampColumns c table s).2.tsCache.lookup table
      = some (getTimestampColumns c table s).1 := by
  unfold getTimestampColumns
  rcases h : s.tsCache.lookup table with _ | cols
  · rcases c.catalog table with _ | names <;> simp [lookup_cons_eq]
  · simp [h]

/-- A call for a cached table returns the cached set and changes nothing. -/
theorem getTimestampColumns_hit (c : Call) (table : String) (s : State) (cols : List String)
    (h : s.tsCache.lookup table = some cols) :
    getTimestampColumns c table s = (cols, s) := by
  unfold getTimestampColumns
  rw [h]

/-- A call leaves the statement log alone. -/
theorem getTimestampColumns_execs (c : Call) (table : String) (s : State) :
    (getTimestampColumns c table s).2.execs = s.execs := by
  unfold getTimestampColumns
  rcases s.tsCache.lookup table with _ | cols
  · rcases c.catalog table with _ | names <;> rfl
  · rfl

/-- The columns of the `SET` list are the columns visited, `id` left out. -/
theorem upsertBuild_ups_keys (rt : Runtime) (ts : List String) (es : List (String × Value)) :
    (upsertBuild rt ts es).ups.map Prod.fst = (es.map Prod.fst).filter (fun k => k ≠ "id") := by
  rw [upsertBuild_eq]
  simp only []
  have hz : ((es.map Prod.fst).zip (List.range' 1 es.length)).map Prod.fst = es.map Prod.fst :=
    List.map_fst_zip _ _ (by simp)
  conv_rhs => rw [← hz]
  rw [List.filter_map]
  rfl

/-- Whether the `SET` list is empty does not depend on the arrangement. -/
theorem upsertBuild_ups_length (rt : Runtime) (ts : List String)
    (es fs : List (String × Value)) (hp : es.Perm fs) :
    (upsertBuild rt ts es).ups.length = (upsertBuild rt ts fs).ups.length := by
  have h1 := congrArg List.length (upsertBuild_ups_keys rt ts es)
  have h2 := congrArg List.length (upsertBuild_ups_keys rt ts fs)
  rw [List.length_map] at h1 h2
  rw [h1, h2]
  exact ((hp.map Prod.fst).filter _).length_eq

/-- The cache after `upsert` is the cache after its call of `getTimestampColumns`. -/
theorem upsert_tsCache (rt : Runtime) (c : Call) (table : String) (data : GoMap) (s : State) :
    (upsert rt c table data s).tsCache = (getTimestampColumns c table s).2.tsCache := by
  unfold upsert
  simp only []
  split_ifs <;> rfl

/-- The log after `upsert`: the statement built is appended unless its `SET`
list is empty. -/
theorem upsert_execs (rt : Runtime) (c : Call) (table : String) (data : GoMap) (s : State) :
    (upsert rt c table data s).execs =
      s.execs ++
        (if (upsertBuild rt (getTimestampColumns c table s).1 (c.rangeOrder data)).ups.length = 0
         then []
         else [Stmt.upsert table
            (upsertBuild rt (getTimestampColumns c table s).1 (c.rangeOrder data)).cols
            (upsertBuild rt (getTimestampColumns c table s).1 (c.rangeOrder data)).phs
            (upsertBuild rt (getTimestampColumns c table s).1 (c.rangeOrder data)).ups
            (upsertBuild rt (getTimestampColumns c table s).1 (c.rangeOrder data)).vals]) := by
  unfold upsert
  simp only []
  split_ifs <;> simp [getTimestampColumns_execs]

/-- Replaying a log that ends with a statement. -/
theorem replay_append (log more : List Stmt) (r : Replica) :
    replay (log ++ more) r = replay more (replay log r) := by
  unfold replay
  rw [List.foldl_append]

/-- Replaying one statement. -/
theorem replay_single (q : Stmt) (r : Replica) : replay [q] r = q.apply r := rfl

/-- Replaying nothing. -/
theorem replay_nil (r : Replica) : replay [] r = r := rfl

/-- The statements a call of `upsert` hands to `db.Exec`. -/
theorem upsert_new (rt : Runtime) (c : Call) (table : String) (data : GoMap) (s : State) :
    (upsert rt c table data s).execs.drop s.execs.length =
      (if (upsertBuild rt (getTimestampColumns c table s).1 (c.rangeOrder data)).ups.length = 0
       then []
       else [Stmt.upsert table
          (upsertBuild rt (getTimestampColumns c table s).1 (c.rangeOrder data)).cols
          (upsertBuild rt (getTimestampColumns c table s).1 (c.rangeOrder data)).phs
          (upsertBuild rt (getTimestampColumns c table s).1 (c.rangeOrder data)).ups
          (upsertBuild rt (getTimestampColumns c table s).1 (c.rangeOrder data)).vals]) := by
  rw [upsert_execs, List.drop_left]

/-- The statement a call of `del` hands to `db.Exec`. -/
theorem del_new (c : Call) (table : String) (data : GoMap) (s : State) :
    (del c table data s).execs.drop s.execs.length = [Stmt.delete table (data.get "id")] := by
  unfold del
  simp only []
  rw [List.drop_left]

/-- A second `upsert` of the same image finds the set of the first in the cache. -/
theorem upsert_second_hit (rt : Runtime) (c1 c2 : Call) (table : String) (data : GoMap)
    (s : State) :
    getTimestampColumns c2 table (upsert rt c1 table data s)
      = ((getTimestampColumns c1 table s).1, upsert rt c1 table data s) := by
  apply getTimestampColumns_hit
  rw [upsert_tsCache, getTimestampColumns_stored]

/-- An accepted `upsert` of an image that carries an `id`, followed by a second
`upsert` of the same image, accepted or not and in whatever arrangement, leaves
the replica as the first left it. -/
theorem upsert_twice (rt : Runtime) (c1 c2 : Call) (table : String) (data : GoMap)
    (s : State) (r : Replica)
    (hn : (data.map Prod.fst).Nodup) (hid : "id" ∈ data.map Prod.fst)
    (h1 : (c1.rangeOrder data).Perm data) (h2 : (c2.rangeOrder data).Perm data)
    (hacc : ∀ q ∈ (upsert rt c1 table data s).execs.drop s.execs.length, c1.execOk q = true) :
    replay (((upsert rt c2 table data (upsert rt c1 table data s)).execs.drop
        (upsert rt c1 table data s).execs.length).filter c2.execOk)
      (replay (((upsert rt c1 table data s).execs.drop s.execs.length).filter c1.execOk) r)
      = replay (((upsert rt c1 table data s).execs.drop s.execs.length).filter c1.execOk) r := by
  rw [List.filter_eq_self.2 hacc]
  rw [upsert_new rt c2, upsert_second_hit, upsert_new rt c1]
  simp only []
  have hlen := upsertBuild_ups_length rt (getTimestampColumns c1 table s).1
    (c2.rangeOrder data) (c1.rangeOrder data) (h2.trans h1.symm)
  rw [hlen]
  by_cases he : (upsertBuild rt (getTimestampColumns c1 table s).1
      (c1.rangeOrder data)).ups.length = 0
  · simp only [if_pos he, List.filter_nil, replay_nil]
  · simp only [if_neg he]
    rw [replay_single, apply_build rt _ table _ data h1 hn]
    rcases hx : c2.execOk (Stmt.upsert table
        (upsertBuild rt (getTimestampColumns c1 table s).1 (c2.rangeOrder data)).cols
        (upsertBuild rt (getTimestampColumns c1 table s).1 (c2.rangeOrder data)).phs
        (upsertBuild rt (getTimestampColumns c1 table s).1 (c2.rangeOrder data)).ups
        (upsertBuild rt (getTimestampColumns c1 table s).1 (c2.rangeOrder data)).vals)
    · rw [List.filter_cons_of_neg (by simp [hx]), List.filter_nil, replay_nil]
    · rw [List.filter_cons_of_pos hx, List.filter_nil, replay_single,
        apply_build rt _ table _ data h2 hn,
        upsertRow_idem _ _ _ (boundRow_id rt _ data hid)]

/-- An accepted `del`, followed by a second `del` of the same image, accepted or
not, leaves the replica as the first left it. -/
theorem del_twice (c1 c2 : Call) (table : String) (data : GoMap) (s : State) (r : Replica)
    (hacc : ∀ q ∈ (del c1 table data s).execs.drop s.execs.length, c1.execOk q = true) :
    replay (((del c2 table data (del c1 table data s)).execs.drop
        (del c1 table data s).execs.length).filter c2.execOk)
      (replay (((del c1 table data s).execs.drop s.execs.length).filter c1.execOk) r)
      = replay (((del c1 table data s).execs.drop s.execs.length).filter c1.execOk) r := by
  rw [List.filter_eq_self.2 hacc]
  rw [del_new c2, del_new c1, replay_single]
  rcases hx : c2.execOk (Stmt.delete table (data.get "id"))
  · rw [List.filter_cons_of_neg (by simp [hx]), List.filter_nil, replay_nil]
  · rw [List.filter_cons_of_pos hx, List.filter_nil, replay_single, apply_delete_idem]

/-! ## C1: the numeric branch of `convertTimestamp` -/

/-- C1 as stated fails: in a process one hour east of UTC, the input
946683000000000 (1999-12-31T23:30:00Z read as microseconds, UTC year 1999) is
returned as the microsecond instant, not as the millisecond instant. -/
theorem convertTimestamp_utc_year_counterexample :
    toInt64 oneHourEast (.fin 946683000000000 0) = 946683000000000 ∧
    (instantOfMicros 946683000000000).yearUTC = 1999 ∧
    convertTimestamp oneHourEast (.num (.fin 946683000000000 0))
      = .time (instantOfMicros 946683000000000) ∧
    convertTimestamp oneHourEast (.num (.fin 946683000000000 0))
      ≠ .time (if 2000 ≤ (instantOfMicros 946683000000000).yearUTC ∧
                  (instantOfMicros 946683000000000).yearUTC ≤ 2100
               then instantOfMicros 946683000000000
               else instantOfMillis 946683000000000) := by
  decide

/-- C1 (amended): for every numeric input whose truncation `e` to `int64` is not
zero, of either sign, `convertTimestamp` returns the instant `e` microseconds
after the epoch when the year of that instant, read in the time zone of the
process, is in 2000..2100, and the instant `e` milliseconds after the epoch
otherwise. -/
theorem convertTimestamp_numeric (rt : Runtime) (f : F64) (he : toInt64 rt f ≠ 0) :
    convertTimestamp rt (.num f)
      = .time (if 2000 ≤ (instantOfMicros (toInt64 rt f)).yearIn rt.localOffset ∧
                  (instantOfMicros (toInt64 rt f)).yearIn rt.localOffset ≤ 2100
               then instantOfMicros (toInt64 rt f)
               else instantOfMillis (toInt64 rt f)) := by
  unfold convertTimestamp
  simp only [if_neg he, unix_micros, unix_millis, Time.year, ge_iff_le]
  split_ifs <;> rfl

/-- C1 (amended) at a negative input: -1700000000001 is outside 2000..2100 as
microseconds and becomes the instant 1 ms before 1916-02-17T08:26:40Z. -/
theorem convertTimestamp_numeric_witness :
    toInt64 oneHourEast (.fin (-1700000000001) 0) ≠ 0 ∧
    convertTimestamp oneHourEast (.num (.fin (-1700000000001) 0))
      = .time ⟨-1700000001, 999000000⟩ :=
  ⟨by decide,
   (convertTimestamp_numeric oneHourEast (.fin (-1700000000001) 0) (by decide)).trans
     (by decide)⟩

/-! ## C2: the applied-event counter -/

/-- On the upsert path the counter moves by one exactly when a statement was
issued and `db.Exec` returned no error. -/
theorem upsert_written (rt : Runtime) (c : Call) (table : String) (data : GoMap) (s : State) :
    (upsert rt c table data s).written =
      if (upsert rt c table data s).execs = s.execs then s.written
      else if (∀ q ∈ ((upsert rt c table data s).execs.drop s.execs.length), c.execOk q = true)
      then wrap64 (s.written + 1)
      else s.written := by
  have hw : (getTimestampColumns c table s).2.written = s.written := by
    unfold getTimestampColumns
    rcases s.tsCache.lookup table with _ | cols
    · rcases c.catalog table with _ | names <;> rfl
    · rfl
  rw [upsert_execs]
  unfold upsert
  simp only []
  by_cases h0 : (upsertBuild rt (getTimestampColumns c table s).1
      (c.rangeOrder data)).ups.length = 0
  · simp [h0, hw]
  · by_cases hx : c.execOk (Stmt.upsert table
        (upsertBuild rt (getTimestampColumns c table s).1 (c.rangeOrder data)).cols
        (upsertBuild rt (getTimestampColumns c table s).1 (c.rangeOrder data)).phs
        (upsertBuild rt (getTimestampColumns c table s).1 (c.rangeOrder data)).ups
        (upsertBuild rt (getTimestampColumns c table s).1 (c.rangeOrder data)).vals) = true
    · simp [h0, hx, hw]
    · simp [h0, hx, hw]

/-- On the delete path the counter moves by one whatever `db.Exec` returned. -/
theorem del_written (c : Call) (table : String) (data : GoMap) (s : State) :
    (del c table data s).written = wrap64 (s.written + 1) ∧
    (del c table data s).execs = s.execs ++ [Stmt.delete table (data.get "id")] :=
  ⟨rfl, rfl⟩

/-- C2 fails on the delete path: for the delete event of the row with `id` 7,
with a replica that rejects the `DELETE`, `applyToPostgres2` still raises
`written` from 0 to 1. -/
theorem applyToPostgres2_delete_counts_failed_write :
    route utcRuntime failingWrites deleteEventBytes
      = .del [("id", .num (.fin 7 0))] ∧
    failingWrites.execOk (.delete "devices" (.num (.fin 7 0))) = false ∧
    (applyToPostgres2 utcRuntime failingWrites "devices" deleteEventBytes State.init).execs
      = [.delete "devices" (.num (.fin 7 0))] ∧
    (applyToPostgres2 utcRuntime failingWrites "devices" deleteEventBytes State.init).written
      = 1 := by
  decide

/-! ## C3: where `applyToPostgres2` sends an event -/

/-- The string assertion yields a given non-empty string only from that string. -/
theorem asString_eq_iff (v : Value) (x : String) (hx : x ≠ "") :
    v.asString = x ↔ v = .str x := by
  cases v <;> simp [Value.asString, hx, Ne.symm hx]

/-- The map assertion succeeds exactly on objects. -/
theorem asMap_eq_some_iff (v : Value) (m : GoMap) : v.asMap = some m ↔ v = .obj m := by
  cases v <;> simp [Value.asMap]

/-- C3: for every byte string, when the replica handle opens: the event goes to
`upsert` with the after-image `a` exactly when the bytes decode to a JSON object
whose `op` is "c", "r" or "u" and whose `after` is the object `a`; it goes to
`del` with the before-image `b` exactly when `op` is "d" and `before` is the
object `b` (`op`, `after`, `before` being read, as the code reads them, from the
record of the decoded object); in every other case nothing is written and the
state is returned as it was. -/
theorem applyToPostgres2_routing (rt : Runtime) (c : Call) (table : String)
    (value : List UInt8) (s : State) (ho : c.openOk = true) :
    (∀ a, route rt c value = .upsert a ↔
      ∃ ev, rt.jsonDecode value = some (.obj ev) ∧
        ((record ev).get "op" = .str "c" ∨ (record ev).get "op" = .str "r" ∨
          (record ev).get "op" = .str "u") ∧
        (record ev).get "after" = .obj a) ∧
    (∀ b, route rt c value = .del b ↔
      ∃ ev, rt.jsonDecode value = some (.obj ev) ∧
        (record ev).get "op" = .str "d" ∧ (record ev).get "before" = .obj b) ∧
    (∀ a, route rt c value = .upsert a →
      applyToPostgres2 rt c table value s = upsert rt c table a s) ∧
    (∀ b, route rt c value = .del b →
      applyToPostgres2 rt c table value s = del c table b s) ∧
    (route rt c value = .drop → applyToPostgres2 rt c table value s = s) := by
  have hc : (∀ v : Value, v.asString = "c" ↔ v = .str "c") :=
    fun v => asString_eq_iff v "c" (by decide)
  have hr : (∀ v : Value, v.asString = "r" ↔ v = .str "r") :=
    fun v => asString_eq_iff v "r" (by decide)
  have hu : (∀ v : Value, v.asString = "u" ↔ v = .str "u") :=
    fun v => asString_eq_iff v "u" (by decide)
  have hd : (∀ v : Value, v.asString = "d" ↔ v = .str "d") :=
    fun v => asString_eq_iff v "d" (by decide)
  refine ⟨?_, ?_, ?_, ?_, ?_⟩
  · intro a
    unfold route unmarshalMap
    rcases hdec : rt.jsonDecode value with _ | v
    · simp
    · cases v with
      | obj ev =>
        simp only [ho, hc, hr, hu, hd, Option.some.injEq, Value.obj.injEq, exists_eq_left']
        by_cases h1 : (record ev).get "op" = .str "c" ∨ (record ev).get "op" = .str "r" ∨
            (record ev).get "op" = .str "u"
        · rw [if_neg (by simp), if_pos h1]
          rcases hm : ((record ev).get "after").asMap with _ | m
          · have : ∀ a, (record ev).get "after" ≠ .obj a := by
              intro a ha
              rw [ha] at hm
              simp [Value.asMap] at hm
            simp [h1, this]
          · rw [asMap_eq_some_iff] at hm
            simp [h1, hm]
        · rw [if_neg (by simp), if_neg h1]
          have h2 : ¬ ((record ev).get "op" = .str "c" ∨ (record ev).get "op" = .str "r" ∨
            (record ev).get "op" = .str "u") := h1
          split_ifs <;> [split; skip] <;> simp [h2]
      | null =>
        simp [record, GoMap.get, Value.asMap, Value.asString, ho]
      | bool _ => simp
      | num _ => simp
      | str _ => simp
      | time _ => simp
      | arr _ => simp
  · intro b
    unfold route unmarshalMap
    rcases hdec : rt.jsonDecode value with _ | v
    · simp
    · cases v with
      | obj ev =>
        simp only [ho, hc, hr, hu, hd, Option.some.injEq, Value.obj.injEq, exists_eq_left']
        by_cases h1 : (record ev).get "op" = .str "c" ∨ (record ev).get "op" = .str "r" ∨
            (record ev).get "op" = .str "u"
        · rw [if_neg (by simp), if_pos h1]
          have h2 : (record ev).get "op" ≠ .str "d" := by
            rcases h1 with h | h | h <;> rw [h] <;> decide
          split <;> simp [h2]
        · rw [if_neg (by simp), if_neg h1]
          by_cases h3 : (record ev).get "op" = .str "d"
          · rw [if_pos h3]
            rcases hm : ((record ev).get "before").asMap with _ | m
            · have : ∀ a, (record ev).get "before" ≠ .obj a := by
                intro a ha
                rw [ha] at hm
                simp [Value.asMap] at hm
              simp [h3, this]
            · rw [asMap_eq_some_iff] at hm
              simp [h3, hm]
          · rw [if_neg h3]
            simp [h3]
      | null =>
        simp [record, GoMap.get, Value.asMap, Value.asString, ho]
      | bool _ => simp
      | num _ => simp
      | str _ => simp
      | time _ => simp
      | arr _ => simp
  · intro a h
    simp [applyToPostgres2, h]
  · intro b h
    simp [applyToPostgres2, h]
  · intro h
    simp [applyToPostgres2, h]

/-- C3 at the delete event of row 7: it goes to `del` with its before-image. -/
theorem applyToPostgres2_routing_witness :
    failingWrites.openOk = true ∧
    route utcRuntime failingWrites deleteEventBytes = .del [("id", .num (.fin 7 0))] ∧
    applyToPostgres2 utcRuntime failingWrites "devices" deleteEventBytes State.init
      = del failingWrites "devices" [("id", .num (.fin 7 0))] State.init :=
  have h := applyToPostgres2_routing utcRuntime failingWrites "devices" deleteEventBytes
    State.init rfl
  have hr : route utcRuntime failingWrites deleteEventBytes = .del [("id", .num (.fin 7 0))] :=
    (h.2.1 _).2 ⟨deleteRecord, by decide, by decide, by decide⟩
  ⟨rfl, hr, h.2.2.2.1 _ hr⟩

/-! ## C4: applying an event twice -/

/-- The route of an event depends on the call only through `sql.Open`. -/
theorem route_congr (rt : Runtime) (c1 c2 : Call) (value : List UInt8)
    (ho : c2.openOk = c1.openOk) : route rt c2 value = route rt c1 value := by
  unfold route
  rw [ho]

/-- C4 as stated fails: the create event `{"op":"c","after":{"name":"x"}}`,
whose after-image has no `id`, delivered to an empty `devices` table, stores a
row under the default `id` 1; delivered a second time it stores another row
under the default `id` 2, so the replica after two deliveries is not the replica
after one. -/
theorem applyToPostgres2_twice_no_id_counterexample :
    route noIdRuntime plainReplica noIdBytes = .upsert [("name", .str "x")] ∧
    (applyToPostgres2 noIdRuntime plainReplica "devices" noIdBytes State.init).execs
      = [.upsert "devices" ["name"] [1] [("name", 1)] [.str "x"]] ∧
    ((deliver noIdRuntime plainReplica "devices" noIdBytes
        (State.init, emptyReplica)).2.rows "devices" (.num (.fin 1 0))).isSome = true ∧
    ((deliver noIdRuntime plainReplica "devices" noIdBytes
        (State.init, emptyReplica)).2.rows "devices" (.num (.fin 2 0))).isSome = false ∧
    ((deliver noIdRuntime plainReplica "devices" noIdBytes
        (deliver noIdRuntime plainReplica "devices" noIdBytes
          (State.init, emptyReplica))).2.rows "devices" (.num (.fin 2 0))).isSome = true ∧
    (deliver noIdRuntime plainReplica "devices" noIdBytes
        (deliver noIdRuntime plainReplica "devices" noIdBytes (State.init, emptyReplica))).2
      ≠ (deliver noIdRuntime plainReplica "devices" noIdBytes (State.init, emptyReplica)).2 := by
  refine ⟨by decide, by decide, by decide, by decide, by decide, ?_⟩
  intro h
  have h2 := congrArg (fun r : Replica => (r.rows "devices" (.num (.fin 2 0))).isSome) h
  revert h2
  decide

/-- C4 (amended): with the replica a map from `id` to row per table and the
statements of `upsert` and `del` given their SQL meaning (a statement the
replica rejects has no effect), delivering the same event a second time, in
whatever order `range` visits the image and whether or not the replica accepts
the second write, leaves the replica as the first, accepted, delivery left it:
for every delete event and every create, snapshot-read or update event whose
after-image has an `id` column, and every state of process and replica before. -/
theorem applyToPostgres2_twice (rt : Runtime) (c1 c2 : Call) (table : String)
    (value : List UInt8) (s : State) (r : Replica)
    (ho : c2.openOk = c1.openOk)
    (hkeys : ∀ a, route rt c1 value = .upsert a →
      (a.map Prod.fst).Nodup ∧ "id" ∈ a.map Prod.fst)
    (h1 : ∀ m, (c1.rangeOrder m).Perm m) (h2 : ∀ m, (c2.rangeOrder m).Perm m)
    (hacc : ∀ q ∈ (applyToPostgres2 rt c1 table value s).execs.drop s.execs.length,
      c1.execOk q = true) :
    (deliver rt c2 table value (deliver rt c1 table value (s, r))).2
      = (deliver rt c1 table value (s, r)).2 := by
  unfold deliver
  simp only []
  revert hacc
  unfold applyToPostgres2
  rw [route_congr rt c1 c2 value ho]
  rcases hr : route rt c1 value with a | b | _
  · intro hacc
    exact upsert_twice rt c1 c2 table a s r (hkeys a hr).1 (hkeys a hr).2 (h1 a) (h2 a) hacc
  · intro hacc
    exact del_twice c1 c2 table b s r hacc
  · intro _
    simp [replay_nil]

/-- C4 (amended) at the update event of row 7, delivered to an empty replica by
a call that visits the image last column first and then by one that visits it
first column first: row 7 is stored once, the same after both deliveries. -/
theorem applyToPostgres2_twice_witness :
    (applyToPostgres2 utcRuntime workingReplica "devices" updateEventBytes State.init).execs
      = [.upsert "devices" ["updated_at", "name", "id"] [1, 2, 3]
          [("updated_at", 1), ("name", 2)]
          [.time ⟨1700000000, 0⟩, .str "r750", .num (.fin 7 0)]] ∧
    ((deliver utcRuntime workingReplica "devices" updateEventBytes
        (State.init, emptyReplica)).2.rows "devices" (.num (.fin 7 0))).isSome = true ∧
    (deliver utcRuntime plainReplica "devices" updateEventBytes
        (deliver utcRuntime workingReplica "devices" updateEventBytes
          (State.init, emptyReplica))).2
      = (deliver utcRuntime workingReplica "devices" updateEventBytes
          (State.init, emptyReplica)).2 :=
  ⟨by decide, by decide,
   applyToPostgres2_twice utcRuntime workingReplica plainReplica "devices" updateEventBytes
     State.init emptyReplica rfl
     (by
       intro a h
       have hr : route utcRuntime workingReplica updateEventBytes = .upsert updateImage := by
         decide
       rw [hr] at h
       cases h
       exact ⟨by decide, by decide⟩)
     (fun m => List.reverse_perm m) (fun m => List.Perm.refl m)
     (fun _ _ => rfl)⟩

/-! ## C5: the statement `upsert` builds -/

/-- Where a pair sits in a list zipped with a run of consecutive numbers. -/
theorem mem_zip_range' (k : String) (i : Nat) :
    ∀ (l : List String) (s : Nat),
      (k, i) ∈ l.zip (List.range' s l.length) ↔ s ≤ i ∧ l.get? (i - s) = some k := by
  intro l
  induction l with
  | nil => intro s; simp
  | cons x l ih =>
    intro s
    rw [List.length_cons, List.range'_succ, List.zip_cons_cons, List.mem_cons, ih (s + 1)]
    rcases Nat.lt_trichotomy i s with h | h | h
    · constructor
      · rintro (h1 | h1)
        · cases h1; omega
        · omega
      · intro h1; omega
    · subst h
      simp only [Nat.sub_self, List.get?_cons_zero, Option.some.injEq, Prod.mk.injEq,
        and_true, le_refl, true_and]
      constructor
      · rintro (h1 | h1)
        · exact h1.symm
        · omega
      · intro h1; exact Or.inl h1.symm
    · have hi : i - s = (i - (s + 1)) + 1 := by omega
      rw [hi, List.get?_cons_succ]
      constructor
      · rintro (h1 | h1)
        · cases h1; omega
        · exact ⟨by omega, h1.2⟩
      · intro h1; exact Or.inr ⟨by omega, h1.2⟩

/-- C5: for every table and every after-image with a column other than `id`
(a Go map, so with distinct keys, visited by `range` in some arrangement),
`upsert` issues one statement; it names each column of the image exactly once;
the column at position `i` (counted from 0) has placeholder `$(i+1)` and
argument number `i+1`, which is `convertTimestamp` of the column's value when
the column is in the temporal set of the table and the raw value otherwise; and
the `SET` list assigns exactly the columns other than `id`, each once, each from
the placeholder of that column. -/
theorem upsert_statement (rt : Runtime) (c : Call) (table : String) (data : GoMap)
    (s : State)
    (hn : (data.map Prod.fst).Nodup)
    (hp : (c.rangeOrder data).Perm data)
    (hcol : ∃ k ∈ data.map Prod.fst, k ≠ "id") :
    ∃ cols phs ups vals,
      (upsert rt c table data s).execs = s.execs ++ [Stmt.upsert table cols phs ups vals] ∧
      cols.Perm (data.map Prod.fst) ∧ cols.Nodup ∧
      phs.length = cols.length ∧ vals.length = cols.length ∧
      (∀ i k, cols.get? i = some k →
        phs.get? i = some (i + 1) ∧
        vals.get? i = some
          (if k ∈ (getTimestampColumns c table s).1 then convertTimestamp rt (data.get k)
           else data.get k)) ∧
      (ups.map Prod.fst).Nodup ∧
      (∀ k i, (k, i) ∈ ups ↔ (k ≠ "id" ∧ 1 ≤ i ∧ cols.get? (i - 1) = some k)) := by
  set ts := (getTimestampColumns c table s).1 with hts
  set es := c.rangeOrder data with hes
  have hcn : (es.map Prod.fst).Nodup := (hp.map Prod.fst).nodup_iff.2 hn
  have hb := upsertBuild_eq rt ts es
  have hkeys := upsertBuild_ups_keys rt ts es
  refine ⟨es.map Prod.fst, List.range' 1 es.length,
    ((es.map Prod.fst).zip (List.range' 1 es.length)).filter (fun ki => ki.1 ≠ "id"),
    es.map (argOf rt ts), ?_, hp.map Prod.fst, hcn, by simp, by simp, ?_, ?_, ?_⟩
  · rw [upsert_execs, ← hts, ← hes, hb]
    simp only []
    rw [if_neg]
    intro h0
    have h1 : ((upsertBuild rt ts es).ups.map Prod.fst).length = 0 := by
      rw [List.length_map, hb]; exact h0
    rw [hkeys, List.length_eq_zero, List.filter_eq_nil_iff] at h1
    obtain ⟨k, hk, hkid⟩ := hcol
    exact h1 k ((hp.map Prod.fst).mem_iff.2 hk) (by simpa using hkid)
  · intro i k hik
    rw [List.get?_eq_getElem?, List.getElem?_map] at hik
    rcases hei : es[i]? with _ | ⟨k', v⟩
    · rw [hei] at hik; cases hik
    · rw [hei] at hik
      simp only [Option.map_some', Option.some.injEq] at hik
      subst hik
      have hilt : i < es.length := by
        by_contra hge
        rw [List.getElem?_eq_none (by omega)] at hei
        cases hei
      have hmem : (k', v) ∈ es := List.getElem?_mem hei
      have hlk : data.lookup k' = some v :=
        (lookup_eq_some_iff_mem k' v data hn).2 (hp.mem_iff.1 hmem)
      have hget : data.get k' = v := by
        unfold GoMap.get
        rw [hlk]
      constructor
      · rw [List.get?_eq_getElem?, List.getElem?_range' _ _ hilt]
        simp [Nat.add_comm]
      · rw [List.get?_eq_getElem?, List.getElem?_map, hei, hget]
        rfl
  · have := hkeys
    rw [hb] at this
    simp only [] at this
    rw [this]
    exact hcn.filter _
  · intro k i
    have hz := mem_zip_range' k i (es.map Prod.fst) 1
    rw [List.length_map] at hz
    rw [List.mem_filter, hz]
    simp only [ne_eq, decide_not, Bool.not_eq_eq_eq_not, Bool.not_true,
      decide_eq_false_iff_not]
    constructor
    · rintro ⟨⟨h1, h2⟩, h3⟩
      exact ⟨h3, h1, h2⟩
    · rintro ⟨h3, h1, h2⟩
      exact ⟨⟨h1, h2⟩, h3⟩

/-- C5 at the after-image of the update event of row 7, visited last column
first. -/
theorem upsert_statement_witness :
    (updateImage.map Prod.fst).Nodup ∧
    ∃ cols phs ups vals,
      (upsert utcRuntime workingReplica "devices" updateImage State.init).execs
        = State.init.execs ++ [Stmt.upsert "devices" cols phs ups vals] ∧
      cols.Perm (updateImage.map Prod.fst) ∧ cols.Nodup ∧
      phs.length = cols.length ∧ vals.length = cols.length ∧
      (∀ i k, cols.get? i = some k →
        phs.get? i = some (i + 1) ∧
        vals.get? i = some
          (if k ∈ (getTimestampColumns workingReplica "devices" State.init).1
           then convertTimestamp utcRuntime (updateImage.get k)
           else updateImage.get k)) ∧
      (ups.map Prod.fst).Nodup ∧
      (∀ k i, (k, i) ∈ ups ↔ (k ≠ "id" ∧ 1 ≤ i ∧ cols.get? (i - 1) = some k)) :=
  ⟨by decide,
   upsert_statement utcRuntime workingReplica "devices" updateImage State.init
     (by decide) (List.reverse_perm _) ⟨"name", by decide, by decide⟩⟩

/-- The text of the statement built from the after-image of the update event of
row 7, visited last column first. -/
theorem upsert_text_sample :
    (Stmt.upsert "devices" ["updated_at", "name", "id"] [1, 2, 3]
        [("updated_at", 1), ("name", 2)]
        [.time ⟨1700000000, 0⟩, .str "r750", .num (.fin 7 0)]).text
      = "INSERT INTO devices (\"updated_at\",\"name\",\"id\") VALUES ($1,$2,$3) " ++
        "ON CONFLICT (id) DO UPDATE SET \"updated_at\"=$1,\"name\"=$2" := by
  decide

/-! ## C6: values of the years 2000 to 2100 -/

/-- C6 as stated fails: in a process one hour east of UTC, the instant
2100-12-31T23:30:00Z (UTC year 2100) given as microseconds is read as
milliseconds, so the instant returned is not the instant given. -/
theorem convertTimestamp_roundtrip_utc_counterexample :
    (2000 ≤ (instantOfMicros 4133979000000000).yearUTC ∧
      (instantOfMicros 4133979000000000).yearUTC ≤ 2100) ∧
    convertTimestamp oneHourEast (.num (.fin 4133979000000000 0))
      = .time (instantOfMillis 4133979000000000) ∧
    convertTimestamp oneHourEast (.num (.fin 4133979000000000 0))
      ≠ .time (instantOfMicros 4133979000000000) := by
  decide

/-- C6 (amended): in a process whose zone offset never exceeds a day, for every
instant `t` (given by its microsecond count `u`, an `int64`) whose year read in
the time zone of the process is in 2000..2100, `convertTimestamp` of `t` in
microseconds returns `t`, and of `t` in milliseconds returns `t` cut to the
millisecond; 1700000000000000 goes the microsecond way and 1700000000000 the
millisecond way, both to 2023-11-14T22:13:20Z. -/
theorem convertTimestamp_roundtrip (rt : Runtime) (u : Int)
    (hz : ∀ s, -86400 ≤ rt.localOffset s ∧ rt.localOffset s ≤ 86400)
    (hu : -9223372036854775808 ≤ u ∧ u ≤ 9223372036854775807)
    (hy : 2000 ≤ (instantOfMicros u).yearIn rt.localOffset ∧
      (instantOfMicros u).yearIn rt.localOffset ≤ 2100) :
    convertTimestamp rt (.num (.fin u 0)) = .time (instantOfMicros u) ∧
    convertTimestamp rt (.num (.fin (u / 1000) 0)) = .time (instantOfMillis (u / 1000)) ∧
    convertTimestamp rt (.num (.fin 1700000000000000 0)) = .time ⟨1700000000, 0⟩ ∧
    convertTimestamp rt (.num (.fin 1700000000000 0)) = .time ⟨1700000000, 0⟩ ∧
    (⟨1700000000, 0⟩ : Time).yearUTC = 2023 := by
  -- the general fact behind all four conversions
  have key : ∀ v : Int, -9223372036854775808 ≤ v ∧ v ≤ 9223372036854775807 → v ≠ 0 →
      convertTimestamp rt (.num (.fin v 0))
        = .time (if 946684800 ≤ v * 1000 / 1000000000
                      + rt.localOffset (v * 1000 / 1000000000) ∧
                    v * 1000 / 1000000000 + rt.localOffset (v * 1000 / 1000000000)
                      < 4133980800
                 then instantOfMicros v else instantOfMillis v) := by
    intro v hv hv0
    have h1 : convertTimestamp rt (.num (.fin v 0))
        = .time (if 2000 ≤ (instantOfMicros v).yearIn rt.localOffset ∧
                    (instantOfMicros v).yearIn rt.localOffset ≤ 2100
                 then instantOfMicros v else instantOfMillis v) := by
      unfold convertTimestamp
      simp only [toInt64_int rt v hv, if_neg hv0, unix_micros, unix_millis, Time.year,
        ge_iff_le]
      split_ifs <;> rfl
    rw [h1]
    have h2 := yearIn_range rt.localOffset (instantOfMicros v) (hz _)
      (by simp only [instantOfMicros, instantOfNanos]; omega)
    simp only [h2]
    rfl
  have hr := (yearIn_range rt.localOffset (instantOfMicros u) (hz _)
      (by simp only [instantOfMicros, instantOfNanos]; omega)).1 hy
  simp only [instantOfMicros, instantOfNanos] at hr
  have hzu := hz (u * 1000 / 1000000000)
  refine ⟨?_, ?_, ?_, ?_, by decide⟩
  · rw [key u hu (by omega), if_pos hr]
  · have hzm := hz (u / 1000 * 1000 / 1000000000)
    rw [key (u / 1000) (by omega) (by omega), if_neg (by omega)]
  · have hz1 := hz (1700000000000000 * 1000 / 1000000000)
    rw [key 1700000000000000 (by norm_num) (by norm_num), if_pos (by omega)]
    rfl
  · have hz1 := hz (1700000000000 * 1000 / 1000000000)
    rw [key 1700000000000 (by norm_num) (by norm_num), if_neg (by omega)]
    rfl

/-- C6 (amended) at the instant 2023-11-14T22:13:20.000001Z in a process one hour
east of UTC. -/
theorem convertTimestamp_roundtrip_witness :
    (∀ s, -86400 ≤ oneHourEast.localOffset s ∧ oneHourEast.localOffset s ≤ 86400) ∧
    convertTimestamp oneHourEast (.num (.fin 1700000000000001 0))
      = .time ⟨1700000000, 1000⟩ ∧
    convertTimestamp oneHourEast (.num (.fin 1700000000000 0))
      = .time ⟨1700000000, 0⟩ :=
  have h := convertTimestamp_roundtrip oneHourEast 1700000000000001
    (fun _ => (by decide : (-86400 : Int) ≤ 3600 ∧ (3600 : Int) ≤ 86400))
    (by decide) (by decide)
  ⟨fun _ => (by decide : (-86400 : Int) ≤ 3600 ∧ (3600 : Int) ≤ 86400), h.1.trans (by decide), h.2.1.trans (by decide)⟩

/-! ## C7: exit status of the bulk-transfer tools -/

/-- `pgDump` ends the process when `pg_dump` fails. -/
theorem pgDump_aborts (w : Boot) (h : w.dumpOk = false) :
    (pgDump w).result = none ∧ (pgDump w).trace = [.dumpStarted, .aborted] := by
  simp [pgDump, h]

/-- C7 fails for `pgRestore`: when `pg_restore` exits with a nonzero status,
`pgRestore` still returns its duration, and the startup sequence goes on to
deploy the connector and start the consumers. -/
theorem pgRestore_returns_after_failed_restore :
    restoreFails.restoreOk = false ∧
    (pgRestore restoreFails "/tmp/omedb.dump").result = some 42 ∧
    Event.aborted ∉ (pgRestore restoreFails "/tmp/omedb.dump").trace ∧
    (startup restoreFails).result = some ("0/16B3748", 10, 42) ∧
    Event.consumerStarted "ome.public.devices" "devices" ∈ (startup restoreFails).trace := by
  decide

/-! ## C8: the slot comes before the dump -/

/-- What came before an event that the first part of a run does not contain
starts with that whole first part. -/
theorem front_of_not_mem {α : Type} (x : α) :
    ∀ (front rest pre post : List α), x ∉ front → front ++ rest = pre ++ x :: post →
      ∃ mid, pre = front ++ mid := by
  intro front
  induction front with
  | nil => intro rest pre post _ _; exact ⟨pre, rfl⟩
  | cons a front ih =>
    intro rest pre post hx h
    cases pre with
    | nil =>
      simp only [List.cons_append, List.nil_append, List.cons.injEq] at h
      exact absurd (h.1 ▸ List.mem_cons_self _ _) hx
    | cons b pre =>
      simp only [List.cons_append, List.cons.injEq] at h
      obtain ⟨mid, hmid⟩ := ih rest pre post (fun hm => hx (List.mem_cons_of_mem _ hm)) h.2
      exact ⟨mid, by rw [h.1, hmid]; rfl⟩

/-- The trace of the startup sequence begins with the trace of its first five
steps, and is no longer than that when they end the process. -/
theorem startup_split (w : Boot) :
    ∃ rest, (startup w).trace = (beforeDump w).trace ++ rest ∧
      ((beforeDump w).result = none → rest = [] ∧ (startup w).result = none) := by
  unfold startup beforeDump
  rcases w with ⟨a, b, c, d, sl, _, _, _, _, _, _, _⟩
  cases a <;> cases b <;> cases c <;> cases d <;> rcases sl with _ | ⟨n, l⟩ <;>
    simp [Run.bind, waitFor, createSlot]

/-- The first five steps start no dump, no restore and no consumer. -/
theorem beforeDump_trace (w : Boot) :
    Event.dumpStarted ∉ (beforeDump w).trace ∧
    (∀ f, Event.restoreStarted f ∉ (beforeDump w).trace) ∧
    (∀ t tb, Event.consumerStarted t tb ∉ (beforeDump w).trace) := by
  unfold beforeDump
  rcases w with ⟨a, b, c, d, sl, _, _, _, _, _, _, _⟩
  cases a <;> cases b <;> cases c <;> cases d <;> rcases sl with _ | ⟨n, l⟩ <;>
    simp [Run.bind, waitFor, createSlot]

/-- The first five steps return only with the position of a created slot. -/
theorem beforeDump_result (w : Boot) (h : (beforeDump w).result ≠ none) :
    ∃ n l, w.slot = some (n, l) ∧ (beforeDump w).result = some l ∧
      Event.slotCreated l ∈ (beforeDump w).trace := by
  revert h
  unfold beforeDump
  rcases w with ⟨a, b, c, d, sl, _, _, _, _, _, _, _⟩
  cases a <;> cases b <;> cases c <;> cases d <;> rcases sl with _ | ⟨n, l⟩ <;>
    simp [Run.bind, waitFor, createSlot]

/-- C8: in every run of the startup sequence, whatever precedes a start of
`pgDump` contains the return of `createSlot` with the position of the slot that
was created; and when the slot creation is rejected the process ends without
`pgDump`, `pgRestore` or any consumer having been started. -/
theorem startup_slot_before_dump (w : Boot) :
    (∀ pre post, (startup w).trace = pre ++ Event.dumpStarted :: post →
      ∃ n l, w.slot = some (n, l) ∧ Event.slotCreated l ∈ pre) ∧
    (w.slot = none →
      (startup w).result = none ∧
      Event.dumpStarted ∉ (startup w).trace ∧
      (∀ f, Event.restoreStarted f ∉ (startup w).trace) ∧
      (∀ t tb, Event.consumerStarted t tb ∉ (startup w).trace)) := by
  obtain ⟨rest, hsplit, hnone⟩ := startup_split w
  have htr := beforeDump_trace w
  constructor
  · intro pre post h
    rw [hsplit] at h
    obtain ⟨mid, hmid⟩ := front_of_not_mem Event.dumpStarted _ rest pre post htr.1 h
    have hres : (beforeDump w).result ≠ none := by
      intro hn
      rw [(hnone hn).1, hmid] at h
      have := congrArg List.length h
      simp at this
    obtain ⟨n, l, hsl, _, hmem⟩ := beforeDump_result w hres
    exact ⟨n, l, hsl, by rw [hmid]; exact List.mem_append_left _ hmem⟩
  · intro hsl
    have hn : (beforeDump w).result = none := by
      by_contra hne
      obtain ⟨n, l, h1, _⟩ := beforeDump_result w hne
      rw [hsl] at h1
      cases h1
    rw [hsplit, (hnone hn).1, List.append_nil]
    exact ⟨(hnone hn).2, htr.1, htr.2.1, htr.2.2⟩

/-- C8 at a startup in which everything but `pg_restore` succeeds, and at one
in which the slot is rejected. -/
theorem startup_slot_before_dump_witness :
    (∃ n l, restoreFails.slot = some (n, l) ∧
      Event.slotCreated l ∈
        [Event.ready "postgres1", .ready "postgres2", .ready "kafka", .ready "debezium",
         .slotRequested, .slotCreated "0/16B3748"]) ∧
    (startup slotRejected).result = none ∧
    Event.dumpStarted ∉ (startup slotRejected).trace :=
  ⟨(startup_slot_before_dump restoreFails).1 _ ((startup restoreFails).trace.drop 7)
     (by decide),
   ((startup_slot_before_dump slotRejected).2 rfl).1,
   ((startup_slot_before_dump slotRejected).2 rfl).2.1⟩

/-! ## C9: one catalog query per table -/

/-- A cached set stays as it is through a call for any table. -/
theorem getTimestampColumns_keeps (c : Call) (t u : String) (s : State) (cols : List String)
    (h : s.tsCache.lookup t = some cols) :
    (getTimestampColumns c u s).2.tsCache.lookup t = some cols := by
  unfold getTimestampColumns
  rcases hu : s.tsCache.lookup u with _ | cu
  · have htu : t ≠ u := by
      intro e
      rw [e, hu] at h
      cases h
    rcases c.catalog u with _ | names <;> simp only [lookup_cons_eq, if_neg htu, h]
  · exact h

/-- A cached set stays as it is through any sequence of calls. -/
theorem getTimestampColumnsSeq_keeps (t : String) (cols : List String) :
    ∀ (calls : List (Call × String)) (s : State), s.tsCache.lookup t = some cols →
      (getTimestampColumnsSeq calls s).tsCache.lookup t = some cols := by
  intro calls
  induction calls with
  | nil => intro s h; exact h
  | cons ct calls ih =>
    intro s h
    exact ih _ (getTimestampColumns_keeps ct.1 t ct.2 s cols h)

/-- A table that is not cached stays so through a call for another table. -/
theorem getTimestampColumns_absent (c : Call) (t u : String) (s : State)
    (h : s.tsCache.lookup t = none) (htu : t ≠ u) :
    (getTimestampColumns c u s).2.tsCache.lookup t = none := by
  unfold getTimestampColumns
  rcases hu : s.tsCache.lookup u with _ | cu
  · rcases c.catalog u with _ | names <;> simp only [lookup_cons_eq, if_neg htu, h]
  · exact h

/-- A table that no call names stays out of the cache. -/
theorem getTimestampColumnsSeq_absent (t : String) :
    ∀ (calls : List (Call × String)) (s : State), s.tsCache.lookup t = none →
      t ∉ calls.map Prod.snd → (getTimestampColumnsSeq calls s).tsCache.lookup t = none := by
  intro calls
  induction calls with
  | nil => intro s h _; exact h
  | cons ct calls ih =>
    intro s h hnot
    rw [List.map_cons, List.mem_cons, not_or] at hnot
    exact ih _ (getTimestampColumns_absent ct.1 t ct.2 s h hnot.1) hnot.2

/-- A call keeps the invariant of cache and query log. -/
theorem getTimestampColumns_queriedOnce (c : Call) (u : String) (s : State)
    (h : QueriedOnce s) : QueriedOnce (getTimestampColumns c u s).2 := by
  unfold getTimestampColumns
  rcases hu : s.tsCache.lookup u with _ | cu
  · have hnq : u ∉ s.queries := fun hm => (h u).2 hm hu
    have hstep : ∀ names : List String, QueriedOnce
        { s with tsCache := (u, names) :: s.tsCache, queries := s.queries ++ [u] } := by
      intro names t
      simp only [List.count_append, List.mem_append, List.mem_singleton, lookup_cons_eq]
      by_cases htu : t = u
      · subst htu
        rw [List.count_eq_zero_of_not_mem hnq]
        simp
      · rw [if_neg htu]
        have hc : List.count t [u] = 0 :=
          List.count_eq_zero_of_not_mem (by simpa using htu)
        rw [hc]
        refine ⟨(h t).1, ?_⟩
        rintro (hm | hm)
        · exact (h t).2 hm
        · exact absurd hm htu
    rcases c.catalog u with _ | names
    · exact hstep []
    · exact hstep names
  · exact h

/-- Any sequence of calls keeps the invariant of cache and query log. -/
theorem getTimestampColumnsSeq_queriedOnce :
    ∀ (calls : List (Call × String)) (s : State), QueriedOnce s →
      QueriedOnce (getTimestampColumnsSeq calls s) := by
  intro calls
  induction calls with
  | nil => intro s h; exact h
  | cons ct calls ih =>
    intro s h
    exact ih _ (getTimestampColumns_queriedOnce ct.1 ct.2 s h)

/-- C9: starting from an empty cache, for every table `t` and every sequence of
calls, the catalog is queried at most once for `t`; the first call for `t`
queries, stores the set found (empty when the query fails) and returns it; and
a later call for `t`, whatever calls came in between, returns that same set and
queries nothing. -/
theorem getTimestampColumns_once (t : String) (c c2 : Call)
    (pre mid : List (Call × String)) :
    (∀ calls, (getTimestampColumnsSeq calls State.init).queries.count t ≤ 1) ∧
    (t ∉ pre.map Prod.snd →
      (getTimestampColumns c t (getTimestampColumnsSeq pre State.init)).2.queries
        = (getTimestampColumnsSeq pre State.init).queries ++ [t] ∧
      (getTimestampColumns c t (getTimestampColumnsSeq pre State.init)).1
        = (c.catalog t).getD []) ∧
    (getTimestampColumns c t (getTimestampColumnsSeq pre State.init)).2.tsCache.lookup t
      = some (getTimestampColumns c t (getTimestampColumnsSeq pre State.init)).1 ∧
    getTimestampColumns c2 t (getTimestampColumnsSeq mid
        (getTimestampColumns c t (getTimestampColumnsSeq pre State.init)).2)
      = ((getTimestampColumns c t (getTimestampColumnsSeq pre State.init)).1,
         getTimestampColumnsSeq mid
           (getTimestampColumns c t (getTimestampColumnsSeq pre State.init)).2) := by
  have hinit : QueriedOnce State.init := by
    intro u
    simp [State.init]
  refine ⟨fun calls => (getTimestampColumnsSeq_queriedOnce calls _ hinit t).1, ?_,
    getTimestampColumns_stored c t _, ?_⟩
  · intro hnot
    have habs := getTimestampColumnsSeq_absent t pre State.init rfl hnot
    unfold getTimestampColumns
    rw [habs]
    rcases c.catalog t with _ | names <;> exact ⟨rfl, rfl⟩
  · apply getTimestampColumns_hit
    exact getTimestampColumnsSeq_keeps t _ mid _ (getTimestampColumns_stored c t _)

/-- C9 at the table `devices`: a first call during which the catalog answers, a
call for `alerts` during which it fails, then a call for `devices` during which
it would fail. -/
theorem getTimestampColumns_once_witness :
    (getTimestampColumns workingReplica "devices" State.init).2.queries = ["devices"] ∧
    (getTimestampColumns workingReplica "devices" State.init).1 = ["updated_at"] ∧
    (getTimestampColumns failingWrites "devices"
        (getTimestampColumnsSeq [(failingWrites, "alerts")]
          (getTimestampColumns workingReplica "devices" State.init).2)).1
      = ["updated_at"] ∧
    (getTimestampColumns failingWrites "devices"
        (getTimestampColumnsSeq [(failingWrites, "alerts")]
          (getTimestampColumns workingReplica "devices" State.init).2)).2.queries
      = ["devices", "alerts"] :=
  have h := getTimestampColumns_once "devices" workingReplica failingWrites
    [] [(failingWrites, "alerts")]
  have h1 := h.2.1 (by decide)
  ⟨h1.1, h1.2, (congrArg Prod.fst h.2.2.2).trans h1.2,
   (congrArg (fun p => p.2.queries) h.2.2.2).trans (by decide)⟩

/-! ## C10: what `convertTimestamp` leaves alone -/

/-- C10: `convertTimestamp` returns its argument unchanged for every string, for
null, for every other non-numeric value (booleans, arrays, objects, times) and
for the number 0. -/
theorem convertTimestamp_passthrough (rt : Runtime) :
    (∀ s, convertTimestamp rt (.str s) = .str s) ∧
    convertTimestamp rt .null = .null ∧
    (∀ b, convertTimestamp rt (.bool b) = .bool b) ∧
    (∀ xs, convertTimestamp rt (.arr xs) = .arr xs) ∧
    (∀ m, convertTimestamp rt (.obj m) = .obj m) ∧
    (∀ t, convertTimestamp rt (.time t) = .time t) ∧
    (∀ e, convertTimestamp rt (.num (.fin 0 e)) = .num (.fin 0 e)) := by
  refine ⟨fun _ => rfl, rfl, fun _ => rfl, fun _ => rfl, fun _ => rfl, fun _ => rfl, ?_⟩
  intro e
  simp [convertTimestamp, toInt64_zero]

/-! ## C11: the envelope -/

/-- The record of an envelope around `R` is `R`. -/
theorem record_wrapped (R : GoMap) : record [("payload", .obj R)] = R := by
  simp [record, GoMap.get, Value.asMap]

/-- The record of an object without an object-valued `payload` is the object. -/
theorem record_bare (R : GoMap) (hp : ∀ m, R.get "payload" ≠ .obj m) : record R = R := by
  unfold record
  rcases h : (R.get "payload").asMap with _ | m
  · rfl
  · exact absurd ((asMap_eq_some_iff _ _).1 h) (hp m)

/-- C11: for every JSON object `R` without an object-valued `payload` member,
the event `R` in the envelope `{"payload": R}` and the bare event `R` give
`applyToPostgres2` the same operation, after-image and before-image, hence the
same route, and the call leaves the same state behind (the same statement and
the same counter). -/
theorem applyToPostgres2_envelope (rt : Runtime) (c : Call) (table : String)
    (bare wrapped : List UInt8) (R : GoMap) (s : State)
    (hb : rt.jsonDecode bare = some (.obj R))
    (hw : rt.jsonDecode wrapped = some (.obj [("payload", .obj R)]))
    (hp : ∀ m, R.get "payload" ≠ .obj m) :
    ((record [("payload", .obj R)]).get "op").asString = ((record R).get "op").asString ∧
    ((record [("payload", .obj R)]).get "after").asMap = ((record R).get "after").asMap ∧
    ((record [("payload", .obj R)]).get "before").asMap
      = ((record R).get "before").asMap ∧
    route rt c wrapped = route rt c bare ∧
    applyToPostgres2 rt c table wrapped s = applyToPostgres2 rt c table bare s := by
  have hrec : record [("payload", .obj R)] = record R := by
    rw [record_wrapped, record_bare R hp]
  have hroute : route rt c wrapped = route rt c bare := by
    unfold route unmarshalMap
    rw [hb, hw]
    simp only [hrec]
  refine ⟨by rw [hrec], by rw [hrec], by rw [hrec], hroute, ?_⟩
  unfold applyToPostgres2
  rw [hroute]

/-- C11 at the delete event of row 7, bare and in its envelope. -/
theorem applyToPostgres2_envelope_witness :
    route envelopeRuntime failingWrites wrappedDeleteBytes
      = .del [("id", .num (.fin 7 0))] ∧
    route envelopeRuntime failingWrites wrappedDeleteBytes
      = route envelopeRuntime failingWrites deleteEventBytes ∧
    applyToPostgres2 envelopeRuntime failingWrites "devices" wrappedDeleteBytes State.init
      = applyToPostgres2 envelopeRuntime failingWrites "devices" deleteEventBytes
          State.init :=
  have h := applyToPostgres2_envelope envelopeRuntime failingWrites "devices"
    deleteEventBytes wrappedDeleteBytes deleteRecord State.init (by decide) (by decide)
    (by
      intro m h
      have e : deleteRecord.get "payload" = .null := by decide
      rw [e] at h
      cases h)
  ⟨by decide, h.2.2.2.1, h.2.2.2.2⟩

/-! ## C12: a failed catalog query -/

/-- A cached set stays as it is through any step of a consumer. -/
theorem step_keeps (rt : Runtime) (t : String) (cols : List String) (x : Step) (s : State)
    (h : s.tsCache.lookup t = some cols) : (x.run rt s).tsCache.lookup t = some cols := by
  cases x with
  | columns c table => exact getTimestampColumns_keeps c t table s cols h
  | upsert c table data =>
    show (upsert rt c table data s).tsCache.lookup t = some cols
    rw [upsert_tsCache]
    exact getTimestampColumns_keeps c t table s cols h
  | del c table data => exact h
  | apply c table value =>
    show (applyToPostgres2 rt c table value s).tsCache.lookup t = some cols
    unfold applyToPostgres2
    rcases route rt c value with a | b | _
    · show (upsert rt c table a s).tsCache.lookup t = some cols
      rw [upsert_tsCache]
      exact getTimestampColumns_keeps c t table s cols h
    · exact h
    · exact h

/-- A cached set stays as it is through any sequence of steps. -/
theorem runSteps_keeps (rt : Runtime) (t : String) (cols : List String) :
    ∀ (steps : List Step) (s : State), s.tsCache.lookup t = some cols →
      (runSteps rt steps s).tsCache.lookup t = some cols := by
  intro steps
  induction steps with
  | nil => intro s h; exact h
  | cons x steps ih =>
    intro s h
    exact ih _ (step_keeps rt t cols x s h)

/-- With an empty temporal set every argument is the raw value. -/
theorem upsertBuild_vals_raw (rt : Runtime) (es : List (String × Value)) :
    (upsertBuild rt [] es).vals = es.map Prod.snd := by
  rw [upsertBuild_eq]
  simp only []
  apply List.map_congr_left
  intro kv _
  simp [argOf]

/-- A call leaves the query log alone when the table is cached. -/
theorem upsert_queries_hit (rt : Runtime) (c : Call) (table : String) (data : GoMap)
    (s : State) (cols : List String) (h : s.tsCache.lookup table = some cols) :
    (upsert rt c table data s).queries = s.queries := by
  unfold upsert
  rw [getTimestampColumns_hit c table s cols h]
  simp only []
  split_ifs <;> rfl

/-- C12: when the catalog query fails on the first call of `getTimestampColumns`
for a table (the table is not cached yet), the call returns the empty set and
stores it; after any further activity of the consumers, a later call for the
table returns the empty set and queries nothing, and an `upsert` into the table
queries nothing and passes every value of the image raw: no argument of its
statement went through `convertTimestamp`. -/
theorem getTimestampColumns_failed_query (rt : Runtime) (c c2 : Call) (t : String)
    (s : State) (steps : List Step) (data : GoMap)
    (hfirst : s.tsCache.lookup t = none) (hfail : c.catalog t = none) :
    (getTimestampColumns c t s).1 = [] ∧
    (getTimestampColumns c t s).2.tsCache.lookup t = some [] ∧
    (getTimestampColumns c t s).2.queries = s.queries ++ [t] ∧
    getTimestampColumns c2 t (runSteps rt steps (getTimestampColumns c t s).2)
      = ([], runSteps rt steps (getTimestampColumns c t s).2) ∧
    (upsert rt c2 t data (runSteps rt steps (getTimestampColumns c t s).2)).queries
      = (runSteps rt steps (getTimestampColumns c t s).2).queries ∧
    (upsert rt c2 t data (runSteps rt steps (getTimestampColumns c t s).2)).execs
      = (runSteps rt steps (getTimestampColumns c t s).2).execs ++
        (if ∀ kv ∈ c2.rangeOrder data, kv.1 = "id" then []
         else [Stmt.upsert t ((c2.rangeOrder data).map Prod.fst)
                (List.range' 1 (c2.rangeOrder data).length)
                ((((c2.rangeOrder data).map Prod.fst).zip
                    (List.range' 1 (c2.rangeOrder data).length)).filter
                  (fun ki => ki.1 ≠ "id"))
                ((c2.rangeOrder data).map Prod.snd)]) := by
  have h1 : getTimestampColumns c t s
      = ([], { s with tsCache := (t, []) :: s.tsCache, queries := s.queries ++ [t] }) := by
    unfold getTimestampColumns
    rw [hfirst, hfail]
  have hstored : (getTimestampColumns c t s).2.tsCache.lookup t = some [] := by
    rw [h1]
    simp [lookup_cons_eq]
  have hlater := runSteps_keeps rt t [] steps _ hstored
  have hhit := getTimestampColumns_hit c2 t _ [] hlater
  refine ⟨by rw [h1], hstored, by rw [h1], hhit, upsert_queries_hit rt c2 t data _ [] hlater, ?_⟩
  rw [upsert_execs, hhit]
  simp only []
  have hkeys := upsertBuild_ups_keys rt [] (c2.rangeOrder data)
  have hvals := upsertBuild_vals_raw rt (c2.rangeOrder data)
  have hb := upsertBuild_eq rt [] (c2.rangeOrder data)
  have hlen : (upsertBuild rt [] (c2.rangeOrder data)).ups.length = 0 ↔
      ∀ kv ∈ c2.rangeOrder data, kv.1 = "id" := by
    rw [← List.length_map (upsertBuild rt [] (c2.rangeOrder data)).ups Prod.fst, hkeys,
      List.length_eq_zero, List.filter_eq_nil_iff]
    simp
  by_cases hid : ∀ kv ∈ c2.rangeOrder data, kv.1 = "id"
  · rw [if_pos (hlen.2 hid), if_pos hid]
  · rw [if_neg (fun h0 => hid (hlen.1 h0)), if_neg hid, hvals]
    rw [hb]

/-- C12 at the table `devices`: the first query fails, an update event for
`alerts` is applied in between, and then the image of row 7 is upserted into
`devices` by a call whose catalog would name `updated_at`: the value of
`updated_at` is passed as the number it was. -/
theorem getTimestampColumns_failed_query_witness :
    State.init.tsCache.lookup "devices" = none ∧
    failingWrites.catalog "devices" = none ∧
    (getTimestampColumns workingReplica "devices"
      (runSteps utcRuntime [.apply workingReplica "alerts" updateEventBytes]
        (getTimestampColumns failingWrites "devices" State.init).2)).1 = [] ∧
    (upsert utcRuntime workingReplica "devices" updateImage
      (runSteps utcRuntime [.apply workingReplica "alerts" updateEventBytes]
        (getTimestampColumns failingWrites "devices" State.init).2)).execs
      = [.upsert "alerts" ["updated_at", "name", "id"] [1, 2, 3]
          [("updated_at", 1), ("name", 2)]
          [.time ⟨1700000000, 0⟩, .str "r750", .num (.fin 7 0)],
         .upsert "devices" ["updated_at", "name", "id"] [1, 2, 3]
          [("updated_at", 1), ("name", 2)]
          [.num (.fin 1700000000000000 0), .str "r750", .num (.fin 7 0)]] :=
  have h := getTimestampColumns_failed_query utcRuntime failingWrites workingReplica
    "devices" State.init [.apply workingReplica "alerts" updateEventBytes] updateImage
    rfl rfl
  ⟨rfl, rfl, congrArg Prod.fst h.2.2.2.1, h.2.2.2.2.2.trans (by decide)⟩

/-! ## C13: an after-image that is the key alone -/

/-- A call of `getTimestampColumns` leaves the counter alone. -/
theorem getTimestampColumns_written (c : Call) (table : String) (s : State) :
    (getTimestampColumns c table s).2.written = s.written := by
  unfold getTimestampColumns
  rcases s.tsCache.lookup table with _ | cols
  · rcases c.catalog table with _ | names <;> rfl
  · rfl

/-- An image without a column other than `id` makes `upsert` return before it
builds a statement. -/
theorem upsert_key_only (rt : Runtime) (c : Call) (table : String) (data : GoMap) (s : State)
    (hid : ∀ kv ∈ data, kv.1 = "id") (hp : (c.rangeOrder data).Perm data) :
    upsert rt c table data s = (getTimestampColumns c table s).2 := by
  have hlen : (upsertBuild rt (getTimestampColumns c table s).1
      (c.rangeOrder data)).ups.length = 0 := by
    rw [← List.length_map _ Prod.fst, upsertBuild_ups_keys, List.length_eq_zero,
      List.filter_eq_nil_iff]
    intro k hk
    rw [List.mem_map] at hk
    obtain ⟨kv, hkv, rfl⟩ := hk
    simp [hid kv (hp.mem_iff.1 hkv)]
  unfold upsert
  simp only [hlen, if_true]

/-- C13: for every create, snapshot-read or update event whose after-image has
no column other than `id` (the empty image included), `applyToPostgres2` and
`upsert` hand no statement to `db.Exec` and leave `written` as it was, so the
replica is as it was: no row of the key alone is inserted. -/
theorem applyToPostgres2_key_only (rt : Runtime) (c : Call) (table : String)
    (value : List UInt8) (s : State) (ev a : GoMap)
    (hdec : rt.jsonDecode value = some (.obj ev))
    (hop : (record ev).get "op" = .str "c" ∨ (record ev).get "op" = .str "r" ∨
      (record ev).get "op" = .str "u")
    (hafter : (record ev).get "after" = .obj a)
    (hid : ∀ kv ∈ a, kv.1 = "id") (hp : (c.rangeOrder a).Perm a) :
    (c.openOk = true → route rt c value = .upsert a) ∧
    (upsert rt c table a s).execs = s.execs ∧
    (upsert rt c table a s).written = s.written ∧
    (applyToPostgres2 rt c table value s).execs = s.execs ∧
    (applyToPostgres2 rt c table value s).written = s.written ∧
    (∀ r, replay (applyToPostgres2 rt c table value s).execs r = replay s.execs r) ∧
    (∀ r, (deliver rt c table value (s, r)).2 = r) := by
  have hu := upsert_key_only rt c table a s hid hp
  have hue : (upsert rt c table a s).execs = s.execs := by
    rw [hu, getTimestampColumns_execs]
  have huw : (upsert rt c table a s).written = s.written := by
    rw [hu, getTimestampColumns_written]
  have hops : ((record ev).get "op").asString = "c" ∨ ((record ev).get "op").asString = "r" ∨
      ((record ev).get "op").asString = "u" := by
    rcases hop with h | h | h <;> rw [h] <;> simp [Value.asString]
  have hroute : route rt c value = if c.openOk = false then .drop else .upsert a := by
    unfold route unmarshalMap
    rw [hdec]
    simp only [hafter, Value.asMap, if_pos hops]
  have hae : (applyToPostgres2 rt c table value s).execs = s.execs := by
    unfold applyToPostgres2
    rw [hroute]
    split_ifs
    · rfl
    · exact hue
  have haw : (applyToPostgres2 rt c table value s).written = s.written := by
    unfold applyToPostgres2
    rw [hroute]
    split_ifs
    · rfl
    · exact huw
  refine ⟨?_, hue, huw, hae, haw, fun r => by rw [hae], ?_⟩
  · intro ho
    rw [hroute, if_neg (by simp [ho])]
  · intro r
    unfold deliver
    simp only []
    rw [hae, List.drop_length, List.filter_nil, replay_nil]

/-- C13 at the create event whose after-image is the `id` 7 alone, applied to a
fresh process by a call whose replica accepts every statement. -/
theorem applyToPostgres2_key_only_witness :
    route keyOnlyRuntime workingReplica keyOnlyBytes = .upsert [("id", .num (.fin 7 0))] ∧
    (applyToPostgres2 keyOnlyRuntime workingReplica "devices" keyOnlyBytes State.init).execs
      = [] ∧
    (applyToPostgres2 keyOnlyRuntime workingReplica "devices" keyOnlyBytes State.init).written
      = 0 ∧
    (applyToPostgres2 keyOnlyRuntime workingReplica "devices" keyOnlyBytes State.init).queries
      = ["devices"] :=
  have h := applyToPostgres2_key_only keyOnlyRuntime workingReplica "devices" keyOnlyBytes
    State.init [("op", .str "c"), ("after", .obj [("id", .num (.fin 7 0))])]
    [("id", .num (.fin 7 0))] (by decide) (Or.inl (by decide)) (by decide) (by decide)
    (List.reverse_perm _)
  ⟨h.1 rfl, h.2.2.2.1, h.2.2.2.2.1, by decide⟩

end Writer
